import Mathlib

/-!
Verification of the Darvas box scanner core
(`scanner/darvas_scanner.py`, `scanner/breeze_orders.py`).

The embedding models prices and ratios as rationals, dates as integer day
numbers, and statuses as a closed enumeration of the status strings that
occur in the program.  Each definition mirrors one Python function:

* `detect_box`        — `darvas_scanner.detect_box` (weekly box state machine)
* `analyse`           — the classification part of `darvas_scanner.analyse`
                        (its data-fetch prefix supplies `close`, `prevClose`,
                        `volRatio`, `atrVal`, `daysInBox`; those are inputs here)
* `merge_into_watchlist` — `darvas_scanner.merge_into_watchlist`
* `check_add_candidates` — `darvas_scanner.check_add_candidates`
* `qty_by_risk`, `build_order` — `breeze_orders.qty_by_risk` / `build_order`

Python's `round` (banker's rounding) is modelled by `pyRound`, `int()`
truncation by `pytrunc`.
-/

namespace Darvas

/-! ### Statuses -/

/-- The status strings used by the scanner and watchlist. -/
inductive Status where
  | freshBreakout
  | approaching
  | watching
  | boxForming
  | positionOpen
  | positionClosed
  | manual
deriving DecidableEq, Repr

/-- `PROTECTED_STATUSES = {"POSITION OPEN", "POSITION CLOSED", "MANUAL"}`. -/
def Status.isProtected : Status → Bool
  | .positionOpen => true
  | .positionClosed => true
  | .manual => true
  | _ => false

/-! ### Python numeric helpers -/

/-- Round a rational to the nearest integer, ties to even
(Python's `round` on an exactly-represented value). -/
def rHalfEven (x : ℚ) : ℤ :=
  let f : ℤ := ⌊x⌋
  let r : ℚ := x - f
  if r < 1/2 then f
  else if 1/2 < r then f + 1
  else if Even f then f else f + 1

/-- `round(x, d)` for a rational `x`. -/
def pyRound (x : ℚ) (d : ℕ) : ℚ :=
  (rHalfEven (x * 10 ^ d) : ℚ) / 10 ^ d

/-- `round(x, 2)`. -/
def pyRound2 (x : ℚ) : ℚ := pyRound x 2

/-- `round(x, 1)`. -/
def pyRound1 (x : ℚ) : ℚ := pyRound x 1

/-- Python `int()` applied to a rational: truncation toward zero. -/
def pytrunc (x : ℚ) : ℤ := if 0 ≤ x then ⌊x⌋ else -⌊-x⌋

/-! ### Box detector (`detect_box`) -/

/-- One weekly bar (only `High` and `Low` are read by `detect_box`). -/
structure WBar where
  high : ℚ
  low : ℚ
deriving DecidableEq, Repr

/-- The two confirmation thresholds `cfg["ceil_bars"]`, `cfg["floor_bars"]`. -/
structure BoxCfg where
  ceilBars : ℕ
  floorBars : ℕ
deriving DecidableEq, Repr

/-- The loop state of `detect_box`: pending levels, confirmation counters and
the last confirmed box.  `boxConfIdx` records the loop index of the last
confirmation (the code stores the bar's date; the index identifies the bar). -/
structure BoxState where
  pendingCeil : Option ℚ
  pendingFloor : Option ℚ
  ceilConf : ℕ
  floorConf : ℕ
  boxCeiling : Option ℚ
  boxFloor : Option ℚ
  boxConfIdx : Option ℕ
deriving DecidableEq, Repr

/-- All-`None` / zero state before the loop. -/
def initState : BoxState :=
  { pendingCeil := none, pendingFloor := none, ceilConf := 0, floorConf := 0,
    boxCeiling := none, boxFloor := none, boxConfIdx := none }

/-- Ceiling tracking: seed on `None`, increment the counter while the previous
high does not exceed the pending ceiling, otherwise replace and reset. -/
def trackCeil (st : BoxState) (prevHigh : ℚ) : BoxState :=
  match st.pendingCeil with
  | none => { st with pendingCeil := some prevHigh, ceilConf := 0 }
  | some pc =>
      if prevHigh ≤ pc then { st with ceilConf := st.ceilConf + 1 }
      else { st with pendingCeil := some prevHigh, ceilConf := 0 }

/-- Floor tracking, symmetric (`prev_low >= pending_floor` increments). -/
def trackFloor (st : BoxState) (prevLow : ℚ) : BoxState :=
  match st.pendingFloor with
  | none => { st with pendingFloor := some prevLow, floorConf := 0 }
  | some pf =>
      if pf ≤ prevLow then { st with floorConf := st.floorConf + 1 }
      else { st with pendingFloor := some prevLow, floorConf := 0 }

/-- Confirmation: when both counters have reached their thresholds, record the
box, reset both counters and reseed both pending levels from the current bar. -/
def confirmCheck (cfg : BoxCfg) (i : ℕ) (curr : WBar) (st : BoxState) : BoxState :=
  if cfg.ceilBars ≤ st.ceilConf ∧ cfg.floorBars ≤ st.floorConf then
    { pendingCeil := some curr.high, pendingFloor := some curr.low,
      ceilConf := 0, floorConf := 0,
      boxCeiling := st.pendingCeil, boxFloor := st.pendingFloor,
      boxConfIdx := some i }
  else st

/-- The body of the `for i in range(1, len(rows))` loop at index `i`. -/
def detectStep (cfg : BoxCfg) (i : ℕ) (prev curr : WBar) (st : BoxState) : BoxState :=
  confirmCheck cfg i curr (trackFloor (trackCeil st prev.high) prev.low)

/-- State of the `detect_box` loop after iteration `i` (iterations run for
`1 ≤ i < bars.length`, reading `bars[i-1]` and `bars[i]`). -/
def stAt (cfg : BoxCfg) (bars : List WBar) : ℕ → BoxState
  | 0 => initState
  | i + 1 =>
      if i + 1 < bars.length then
        detectStep cfg (i + 1) (bars.getD i ⟨0, 0⟩) (bars.getD (i + 1) ⟨0, 0⟩)
          (stAt cfg bars i)
      else stAt cfg bars i

/-- `detect_box`: run the loop over the whole weekly bar sequence. -/
def detect_box (cfg : BoxCfg) (bars : List WBar) : BoxState :=
  stAt cfg bars (bars.length - 1)

/-- Thresholds too large to ever be reached on `bars`: with them the state
machine performs pure level/counter tracking and never confirms. -/
def freeCfg (bars : List WBar) : BoxCfg :=
  { ceilBars := bars.length, floorBars := bars.length }

/-- The ceiling confirmation counter after loop iteration `i`, as produced by
the tracking rules alone (no confirmation reset can fire under `freeCfg`). -/
def ceilCount (bars : List WBar) (i : ℕ) : ℕ :=
  (stAt (freeCfg bars) bars i).ceilConf

/-- The floor confirmation counter after loop iteration `i` under pure tracking. -/
def floorCount (bars : List WBar) (i : ℕ) : ℕ :=
  (stAt (freeCfg bars) bars i).floorConf

/-! ### Scan results and the classifier (`analyse`) -/

/-- The result dict produced by `analyse` for one symbol, with the fields read
by `merge_into_watchlist` / `check_add_candidates`.  `source` models the
`_source` bookkeeping key; fields that a branch does not set are `none`
(absent keys read through `.get`). -/
structure ScanResult where
  symbol : String
  status : Status
  alertTier : String
  close : ℚ
  boxCeiling : Option ℚ
  boxFloor : Option ℚ
  boxWidthPct : Option ℚ
  distToCeil : Option ℚ
  slPrice : Option ℚ
  mmTarget : Option ℚ
  riskPct : Option ℚ
  rrRatioVal : Option ℚ
  volRatio : ℚ
  daysInBox : Option ℤ
  weeksToConfirm : Option ℤ
  ceilConf : ℕ
  floorConf : ℕ
  source : String
deriving DecidableEq, Repr

/-- The configuration entries of `CONFIG` read by `analyse` after the box
detector has run. -/
structure ScanCfg where
  ceilBars : ℕ
  floorBars : ℕ
  atrMultBo : ℚ
  volMult : ℚ
  requireVol : Bool
  slBufferPct : ℚ
  maxBoxWidth : ℚ
  proximityPct : ℚ
  hotDistPct : ℚ
  hotVolMult : ℚ
  warmDistPct : ℚ
  warmVolMult : ℚ
deriving Repr

/-- The classification part of `analyse` (lines after the data fetch): takes
the `detect_box` output together with the daily-derived scalars
(`close`, `prev_close`, `vol_ratio`, `atr_val`) and the externally computed
`days_in_box`, and produces the result dict, or `none` when the confirmed box
is too wide.  The `0.0`-truthiness of Python's
`round(v, 2) if v else None` is modelled explicitly. -/
def analyse (symbol : String) (cfg : ScanCfg) (box : BoxState)
    (close prevClose volRatio atrVal : ℚ) (daysInBox : Option ℤ) :
    Option ScanResult :=
  match box.boxCeiling, box.boxFloor with
  | none, _ =>
      -- No confirmed box yet: report box-forming progress.
      let weeksNeeded : ℤ :=
        max ((cfg.ceilBars : ℤ) - (box.ceilConf : ℤ))
            ((cfg.floorBars : ℤ) - (box.floorConf : ℤ))
      some
        { symbol := symbol, status := .boxForming, alertTier := "",
          close := pyRound2 close,
          boxCeiling :=
            match box.pendingCeil with
            | some p => if p = 0 then none else some (pyRound2 p)
            | none => none,
          boxFloor :=
            match box.pendingFloor with
            | some p => if p = 0 then none else some (pyRound2 p)
            | none => none,
          boxWidthPct := none, distToCeil := none, slPrice := none,
          mmTarget := none, riskPct := none, rrRatioVal := none,
          volRatio := pyRound2 volRatio, daysInBox := none,
          weeksToConfirm := some weeksNeeded,
          ceilConf := box.ceilConf, floorConf := box.floorConf, source := "" }
  | some boxCeil, some boxFloor =>
      let boxWidthPct : ℚ := (boxCeil - boxFloor) / boxFloor * 100
      -- Skip boxes that are way too wide (not Darvas-style)
      if cfg.maxBoxWidth < boxWidthPct then none
      else
        let slPrice : ℚ := boxFloor * (1 - cfg.slBufferPct / 100)
        let mmTarget : ℚ := boxCeil + (boxCeil - boxFloor)
        let distToCeil : ℚ := (boxCeil - close) / close * 100
        let breakoutRaw : Bool := decide (boxCeil + atrVal * cfg.atrMultBo < close)
        let volOk : Bool := if cfg.requireVol then decide (cfg.volMult ≤ volRatio) else true
        let freshBo : Bool := breakoutRaw && volOk && decide (prevClose ≤ boxCeil)
        let status : Status :=
          if freshBo then .freshBreakout
          else if breakoutRaw && volOk then .watching
          else if 0 ≤ distToCeil ∧ distToCeil ≤ cfg.proximityPct then .approaching
          else .watching
        let riskPct : Option ℚ := if 0 < close then some ((close - slPrice) / close * 100) else none
        let rewardPct : Option ℚ := if 0 < close then some ((mmTarget - close) / close * 100) else none
        let rrRatioVal : Option ℚ :=
          match riskPct, rewardPct with
          | some rp, some wp => if 0 < rp then some (wp / rp) else none
          | _, _ => none
        let alertTier : String :=
          if status = .approaching then
            if distToCeil ≤ cfg.hotDistPct ∧ cfg.hotVolMult ≤ volRatio then "HOT"
            else if distToCeil ≤ cfg.warmDistPct ∧ cfg.warmVolMult ≤ volRatio then "WARM"
            else "WATCH"
          else if status = .watching ∧ cfg.hotVolMult * (3/2) ≤ volRatio then "VOL-SURGE"
          else ""
        some
          { symbol := symbol, status := status, alertTier := alertTier,
            close := pyRound2 close,
            boxCeiling := some (pyRound2 boxCeil),
            boxFloor := some (pyRound2 boxFloor),
            boxWidthPct := some (pyRound1 boxWidthPct),
            distToCeil := some (pyRound1 distToCeil),
            slPrice := some (pyRound2 slPrice),
            mmTarget := some (pyRound2 mmTarget),
            riskPct :=
              match riskPct with
              | some rp => if rp = 0 then none else some (pyRound1 rp)
              | none => none,
            rrRatioVal :=
              match rrRatioVal with
              | some rr => if rr = 0 then none else some (pyRound2 rr)
              | none => none,
            volRatio := pyRound2 volRatio,
            daysInBox := daysInBox, weeksToConfirm := none,
            ceilConf := box.ceilConf, floorConf := box.floorConf, source := "" }
  | some _, none =>
      -- Unreachable from `detect_box` (both sides of a box are set together).
      none

/-! ### Watchlist (`merge_into_watchlist`, `check_add_candidates`) -/

/-- One row of the persistent watchlist CSV (`WATCHLIST_COLS`).  Dates are
integer day numbers; `today - dateAdded` is the age in days. -/
structure Entry where
  symbol : String
  dateAdded : ℤ
  dateUpdated : ℤ
  prevStatus : Status
  status : Status
  boxCeiling : Option ℚ
  boxFloor : Option ℚ
  boxWidthPct : Option ℚ
  slPrice : Option ℚ
  mmTarget : Option ℚ
  daysInBox : Option ℤ
  source : String
  entryPrice : Option ℚ
  qty : Option ℤ
  notes : String
deriving DecidableEq, Repr

/-- `wl["symbol"] == sym` as a row predicate. -/
def symIs (s : String) (e : Entry) : Bool := e.symbol == s

/-- Replace the first row matched by `p` with `f` of it (pandas
`wl.index[wl["symbol"] == sym][0]` followed by `wl.at` updates). -/
def updateFirst (p : Entry → Bool) (f : Entry → Entry) : List Entry → List Entry
  | [] => []
  | e :: rest => if p e then f e :: rest else e :: updateFirst p f rest

/-- The in-place update for an APPROACHING / WATCHING result on an existing
row (note: `box_width_pct` is not among the updated columns). -/
def applyUpdate (today : ℤ) (r : ScanResult) (e : Entry) : Entry :=
  { e with prevStatus := e.status, status := r.status, dateUpdated := today,
           boxCeiling := r.boxCeiling, boxFloor := r.boxFloor,
           slPrice := r.slPrice, mmTarget := r.mmTarget,
           daysInBox := r.daysInBox }

/-- The `new_row` dict appended for a first-time APPROACHING / WATCHING
symbol; position-tracking columns are absent (`none` / empty). -/
def newEntry (today : ℤ) (r : ScanResult) : Entry :=
  { symbol := r.symbol, dateAdded := today, dateUpdated := today,
    prevStatus := r.status, status := r.status,
    boxCeiling := r.boxCeiling, boxFloor := r.boxFloor,
    boxWidthPct := r.boxWidthPct, slPrice := r.slPrice,
    mmTarget := r.mmTarget, daysInBox := r.daysInBox,
    source := r.source, entryPrice := none, qty := none, notes := "" }

/-- The body of the `for r in results` loop of `merge_into_watchlist`:
protected rows are skipped, FRESH BREAKOUT graduates (removes),
APPROACHING / WATCHING update-or-create, BOX FORMING refreshes an existing
row only. -/
def mergeStep (today : ℤ) (wl : List Entry) (r : ScanResult) : List Entry :=
  if wl.any (symIs r.symbol) = true ∧
      ((wl.find? (symIs r.symbol)).map (fun e => e.status.isProtected)).getD false = true then
    wl
  else if r.status = .freshBreakout then
    if wl.any (symIs r.symbol) = true then wl.filter (fun e => !symIs r.symbol e) else wl
  else if r.status = .approaching ∨ r.status = .watching then
    if wl.any (symIs r.symbol) = true then
      updateFirst (symIs r.symbol) (applyUpdate today r) wl
    else wl ++ [newEntry today r]
  else if r.status = .boxForming ∧ wl.any (symIs r.symbol) = true then
    updateFirst (symIs r.symbol)
      (fun e => { e with dateUpdated := today, status := .boxForming }) wl
  else wl

/-- Row survival under the auto-expiry pass: dropped when older than
`watchlist_days` and not protected. -/
def survives (today maxDays : ℤ) (e : Entry) : Bool :=
  !(decide (maxDays < today - e.dateAdded) && !e.status.isProtected)

/-- The auto-expiry pass at the end of `merge_into_watchlist`. -/
def expire (today maxDays : ℤ) (wl : List Entry) : List Entry :=
  wl.filter (survives today maxDays)

/-- `merge_into_watchlist`: the per-symbol pass over today's results followed
by the auto-expiry pass. -/
def merge_into_watchlist (today maxDays : ℤ) (wl : List Entry)
    (results : List ScanResult) : List Entry :=
  expire today maxDays (results.foldl (mergeStep today) wl)

/-- An add-candidate (`candidate = scan.copy()` enriched with the original
position's details). -/
structure AddCandidate where
  scan : ScanResult
  origEntry : ℚ
  origQty : ℤ
  tier : String
  gainPct : ℚ
deriving DecidableEq, Repr

/-- `result_map = {r["symbol"]: r for r in results}`: a later result for the
same symbol overwrites an earlier one, so lookup finds the last occurrence. -/
def lastResultFor (results : List ScanResult) (s : String) : Option ScanResult :=
  results.reverse.find? (fun r => r.symbol == s)

/-- The body of the `for _, pos in open_pos.iterrows()` loop: the candidate
emitted (if any) for one POSITION OPEN row. -/
def addCandidateFor (results : List ScanResult) (pos : Entry) :
    Option AddCandidate :=
  match lastResultFor results pos.symbol with
  | none => none
  | some scan =>
      let origEntry : ℚ := pos.entryPrice.getD 0
      let newCeiling : ℚ := scan.boxCeiling.getD 0
      if origEntry ≤ 0 ∨ newCeiling ≤ origEntry then none
      else if ¬(scan.status = .freshBreakout ∨ scan.status = .approaching) then none
      else
        some { scan := scan, origEntry := origEntry,
               origQty := pos.qty.getD 0, tier := scan.alertTier,
               gainPct := pyRound1 ((newCeiling - origEntry) / origEntry * 100) }

/-- `check_add_candidates`: for each POSITION OPEN row with a positive entry
price, emit a candidate when today's scan has that symbol with a box ceiling
strictly above the entry and status FRESH BREAKOUT or APPROACHING. -/
def check_add_candidates (results : List ScanResult) (wl : List Entry) :
    List AddCandidate :=
  if wl.isEmpty then []
  else
    (wl.filter (fun e => e.status = .positionOpen)).filterMap
      (addCandidateFor results)

/-! ### Position sizing and order building (`breeze_orders`) -/

/-- `qty_by_risk`: risk-based sizing with a defensive floor of one share. -/
def qty_by_risk (entry sl maxRiskInr : ℚ) : ℤ :=
  let riskPerShare := entry - sl
  if riskPerShare ≤ 0 then 1
  else max 1 (pytrunc (maxRiskInr / riskPerShare))

/-- The entries of `ORDER_CONFIG` used by `build_order`. -/
structure OrderCfg where
  entryBufferPct : ℚ
  riskPerTrade : ℚ
deriving Repr

/-- The numeric fields of the order dict built by `build_order`. -/
structure Order where
  symbol : String
  ceiling : ℚ
  entryPrice : ℚ
  slPrice : ℚ
  targetPrice : ℚ
  quantity : ℤ
  capitalInr : ℚ
  riskInr : ℚ
  rewardInr : ℚ
  rrVal : ℚ
deriving DecidableEq, Repr

/-- `build_order` on a HOT scan result, taking the three prices the code
reads out of the result dict (`box_ceiling`, `sl_price`, `mm_target`). -/
def build_order (symbol : String) (ceiling slPrice mmTarget : ℚ)
    (cfg : OrderCfg) : Order :=
  let entry := pyRound2 (ceiling * (1 + cfg.entryBufferPct / 100))
  let qty := qty_by_risk entry slPrice cfg.riskPerTrade
  let capital := pyRound2 (entry * (qty : ℚ))
  let riskInr := pyRound2 ((entry - slPrice) * (qty : ℚ))
  let rewardInr := pyRound2 ((mmTarget - entry) * (qty : ℚ))
  let rrVal := if 0 < riskInr then pyRound2 (rewardInr / riskInr) else 0
  { symbol := symbol, ceiling := ceiling, entryPrice := entry,
    slPrice := slPrice, targetPrice := mmTarget, quantity := qty,
    capitalInr := capital, riskInr := riskInr, rewardInr := rewardInr,
    rrVal := rrVal }

/-! ### Lemmas about the box detector -/

theorem trackCeil_floor_fields (st : BoxState) (pH : ℚ) :
    (trackCeil st pH).pendingFloor = st.pendingFloor ∧
    (trackCeil st pH).floorConf = st.floorConf ∧
    (trackCeil st pH).boxConfIdx = st.boxConfIdx := by
  unfold trackCeil
  cases st.pendingCeil with
  | none => exact ⟨rfl, rfl, rfl⟩
  | some pc => dsimp only; split <;> exact ⟨rfl, rfl, rfl⟩

theorem trackFloor_ceil_fields (st : BoxState) (pL : ℚ) :
    (trackFloor st pL).pendingCeil = st.pendingCeil ∧
    (trackFloor st pL).ceilConf = st.ceilConf ∧
    (trackFloor st pL).boxConfIdx = st.boxConfIdx := by
  unfold trackFloor
  cases st.pendingFloor with
  | none => exact ⟨rfl, rfl, rfl⟩
  | some pf => dsimp only; split <;> exact ⟨rfl, rfl, rfl⟩

theorem trackCeil_conf_le {st : BoxState} {pH : ℚ} {i : ℕ}
    (h : st.pendingCeil = none ∨ st.ceilConf + 2 ≤ i + 1) :
    (trackCeil st pH).ceilConf ≤ i := by
  unfold trackCeil
  cases hp : st.pendingCeil with
  | none => exact Nat.zero_le _
  | some pc =>
      rcases h with h | h
      · exact absurd hp (h ▸ by simp)
      · dsimp only
        split
        · show st.ceilConf + 1 ≤ i
          omega
        · exact Nat.zero_le _

theorem trackFloor_conf_le {st : BoxState} {pL : ℚ} {i : ℕ}
    (h : st.pendingFloor = none ∨ st.floorConf + 2 ≤ i + 1) :
    (trackFloor st pL).floorConf ≤ i := by
  unfold trackFloor
  cases hp : st.pendingFloor with
  | none => exact Nat.zero_le _
  | some pf =>
      rcases h with h | h
      · exact absurd hp (h ▸ by simp)
      · dsimp only
        split
        · show st.floorConf + 1 ≤ i
          omega
        · exact Nat.zero_le _

/-- After any tracking update the pending ceiling is set. -/
theorem trackCeil_pending_isSome (st : BoxState) (pH : ℚ) :
    (trackCeil st pH).pendingCeil.isSome := by
  unfold trackCeil
  cases st.pendingCeil with
  | none => rfl
  | some pc => dsimp only; split <;> rfl

theorem trackFloor_pending_isSome (st : BoxState) (pL : ℚ) :
    (trackFloor st pL).pendingFloor.isSome := by
  unfold trackFloor
  cases st.pendingFloor with
  | none => rfl
  | some pf => dsimp only; split <;> rfl

/-- Invariant of the loop state after iteration `i`: each counter, whenever
its pending level has been seeded, is at most `i - 1`. -/
def TrackInv (i : ℕ) (st : BoxState) : Prop :=
  (st.pendingCeil = none ∨ st.ceilConf + 2 ≤ i + 1) ∧
  (st.pendingFloor = none ∨ st.floorConf + 2 ≤ i + 1)

theorem trackInv_stAt (cfg : BoxCfg) (bars : List WBar) :
    ∀ i, TrackInv i (stAt cfg bars i) := by
  intro i
  induction i with
  | zero => exact ⟨Or.inl rfl, Or.inl rfl⟩
  | succ i ih =>
      show TrackInv (i + 1) (stAt cfg bars (i + 1))
      rw [stAt]
      split
      · set st := stAt cfg bars i with hst
        set st2 := trackFloor (trackCeil st (bars.getD i ⟨0, 0⟩).high)
            (bars.getD i ⟨0, 0⟩).low with hst2
        have hc2 : st2.ceilConf ≤ i := by
          have := (trackFloor_ceil_fields (trackCeil st (bars.getD i ⟨0, 0⟩).high)
            (bars.getD i ⟨0, 0⟩).low).2.1
          rw [hst2, this]
          exact trackCeil_conf_le ih.1
        have hf2 : st2.floorConf ≤ i := by
          apply trackFloor_conf_le
          rcases ih.2 with h | h
          · left
            rw [← (trackCeil_floor_fields st (bars.getD i ⟨0, 0⟩).high).1] at h
            exact h
          · right
            rw [← (trackCeil_floor_fields st (bars.getD i ⟨0, 0⟩).high).2.1] at h
            exact h
        unfold detectStep confirmCheck
        rw [← hst2]
        split
        · exact ⟨Or.inr (show 0 + 2 ≤ i + 1 + 1 by omega),
                 Or.inr (show 0 + 2 ≤ i + 1 + 1 by omega)⟩
        · exact ⟨Or.inr (show st2.ceilConf + 2 ≤ i + 1 + 1 by omega),
                 Or.inr (show st2.floorConf + 2 ≤ i + 1 + 1 by omega)⟩
      · rcases ih with ⟨h1, h2⟩
        exact ⟨h1.imp id (by omega), h2.imp id (by omega)⟩

/-- Core bound: a confirmation recorded at loop index `j` requires every
counter to have reached its threshold, and counters are at most `j - 1`,
so `j` is strictly greater than the larger threshold. -/
theorem stAt_confIdx_lb (cfg : BoxCfg) (bars : List WBar) :
    ∀ i j, (stAt cfg bars i).boxConfIdx = some j →
      max cfg.ceilBars cfg.floorBars < j := by
  intro i
  induction i with
  | zero => intro j h; exact absurd h (by simp [stAt, initState])
  | succ i ih =>
      intro j h
      rw [stAt] at h
      split at h
      · set st := stAt cfg bars i with hst
        set st2 := trackFloor (trackCeil st (bars.getD i ⟨0, 0⟩).high)
            (bars.getD i ⟨0, 0⟩).low with hst2
        have hinv := trackInv_stAt cfg bars i
        have hc2 : st2.ceilConf ≤ i := by
          have := (trackFloor_ceil_fields (trackCeil st (bars.getD i ⟨0, 0⟩).high)
            (bars.getD i ⟨0, 0⟩).low).2.1
          rw [hst2, this]
          exact trackCeil_conf_le hinv.1
        have hf2 : st2.floorConf ≤ i := by
          apply trackFloor_conf_le
          rcases hinv.2 with h' | h'
          · left
            rw [← (trackCeil_floor_fields st (bars.getD i ⟨0, 0⟩).high).1] at h'
            exact h'
          · right
            rw [← (trackCeil_floor_fields st (bars.getD i ⟨0, 0⟩).high).2.1] at h'
            exact h'
        unfold detectStep confirmCheck at h
        rw [← hst2] at h
        split at h
        · rename_i htrig
          have : j = i + 1 := by
            have : some (i + 1) = some j := by rw [← h]
            exact (Option.some_inj.mp this).symm
          subst this
          have h1 : cfg.ceilBars ≤ i := le_trans htrig.1 hc2
          have h2 : cfg.floorBars ≤ i := le_trans htrig.2 hf2
          omega
        · have hpres : st2.boxConfIdx = st.boxConfIdx := by
            rw [hst2,
              (trackFloor_ceil_fields (trackCeil st (bars.getD i ⟨0, 0⟩).high)
                (bars.getD i ⟨0, 0⟩).low).2.2,
              (trackCeil_floor_fields st (bars.getD i ⟨0, 0⟩).high).2.2]
          exact ih j (by rw [← hpres]; exact h)
      · exact ih j h

/-- Under `freeCfg` the thresholds equal the bar count and are unreachable,
so the state machine never confirms: it computes the raw counters. -/
theorem stAt_free_no_conf (bars : List WBar) :
    ∀ i, (stAt (freeCfg bars) bars i).boxConfIdx = none := by
  intro i
  induction i with
  | zero => rfl
  | succ i ih =>
      rw [stAt]
      split
      · rename_i hlen
        set st := stAt (freeCfg bars) bars i with hst
        set st2 := trackFloor (trackCeil st (bars.getD i ⟨0, 0⟩).high)
            (bars.getD i ⟨0, 0⟩).low with hst2
        have hinv := trackInv_stAt (freeCfg bars) bars i
        have hc2 : st2.ceilConf ≤ i := by
          have := (trackFloor_ceil_fields (trackCeil st (bars.getD i ⟨0, 0⟩).high)
            (bars.getD i ⟨0, 0⟩).low).2.1
          rw [hst2, this]
          exact trackCeil_conf_le hinv.1
        unfold detectStep confirmCheck
        rw [← hst2]
        split
        · rename_i htrig
          exact absurd htrig.1 (by show ¬(bars.length ≤ st2.ceilConf); omega)
        · rw [hst2,
            (trackFloor_ceil_fields (trackCeil st (bars.getD i ⟨0, 0⟩).high)
              (bars.getD i ⟨0, 0⟩).low).2.2,
            (trackCeil_floor_fields st (bars.getD i ⟨0, 0⟩).high).2.2]
          exact ih
      · exact ih

/-- As long as the joint trigger condition has not been met (measured on the
raw counters), the run with real thresholds coincides with the free run. -/
theorem stAt_eq_free (cfg : BoxCfg) (bars : List WBar) :
    ∀ i, (∀ k, 1 ≤ k → k ≤ i →
        ¬(cfg.ceilBars ≤ ceilCount bars k ∧ cfg.floorBars ≤ floorCount bars k)) →
      stAt cfg bars i = stAt (freeCfg bars) bars i := by
  intro i
  induction i with
  | zero => intro _; rfl
  | succ i ih =>
      intro hno
      have heq : stAt cfg bars i = stAt (freeCfg bars) bars i :=
        ih (fun k h1 h2 => hno k h1 (Nat.le_succ_of_le h2))
      rw [stAt, stAt, heq]
      split
      · rename_i hlen
        set st := stAt (freeCfg bars) bars i with hst
        set st2 := trackFloor (trackCeil st (bars.getD i ⟨0, 0⟩).high)
            (bars.getD i ⟨0, 0⟩).low with hst2
        have hinv := trackInv_stAt (freeCfg bars) bars i
        have hc2 : st2.ceilConf ≤ i := by
          have := (trackFloor_ceil_fields (trackCeil st (bars.getD i ⟨0, 0⟩).high)
            (bars.getD i ⟨0, 0⟩).low).2.1
          rw [hst2, this]
          exact trackCeil_conf_le hinv.1
        have hfreeid :
            detectStep (freeCfg bars) (i + 1) (bars.getD i ⟨0, 0⟩)
              (bars.getD (i + 1) ⟨0, 0⟩) st = st2 := by
          unfold detectStep confirmCheck
          rw [← hst2]
          split
          · rename_i htrig
            exact absurd htrig.1 (by show ¬(bars.length ≤ st2.ceilConf); omega)
          · rfl
        have hcount : ceilCount bars (i + 1) = st2.ceilConf ∧
            floorCount bars (i + 1) = st2.floorConf := by
          unfold ceilCount floorCount
          rw [stAt, if_pos hlen, ← hst, hfreeid]
          exact ⟨rfl, rfl⟩
        rw [hfreeid]
        unfold detectStep confirmCheck
        rw [← hst2]
        split
        · rename_i htrig
          exact absurd ⟨hcount.1 ▸ htrig.1, hcount.2 ▸ htrig.2⟩
            (hno (i + 1) (by omega) (le_refl _))
        · rfl
      · rfl

/-! ### Claim C2 -/

/-- The five-bar constant sequence used as the C2 counterexample. -/
def constBars : List WBar := [⟨10, 5⟩, ⟨10, 5⟩, ⟨10, 5⟩, ⟨10, 5⟩, ⟨10, 5⟩]

/-- Claim C2, counterexample: with `ceilBars = floorBars = 3`, a constant
weekly sequence confirms a box at loop index `4`, which is strictly less
than `ceilBars + floorBars = 6` — both counters advance in the same week,
so the claimed lower bound `ceilBars + floorBars` is wrong. -/
theorem detect_box_conf_at_four_lt_sum :
    (detect_box ⟨3, 3⟩ constBars).boxConfIdx = some 4 ∧
    (detect_box ⟨3, 3⟩ constBars).boxCeiling = some 10 ∧
    (detect_box ⟨3, 3⟩ constBars).boxFloor = some 5 ∧
    4 < 3 + 3 := by
  refine ⟨?_, ?_, ?_, by norm_num⟩ <;> decide

/-- Claim C2, amended: the detector never reports a confirmed box at a loop
index at or below `max ceilBars floorBars`; every recorded confirmation index
is at least `max ceilBars floorBars + 1`. -/
theorem detect_box_conf_index_lower_bound (cfg : BoxCfg) (bars : List WBar)
    (j : ℕ) (h : (detect_box cfg bars).boxConfIdx = some j) :
    max cfg.ceilBars cfg.floorBars < j :=
  stAt_confIdx_lb cfg bars (bars.length - 1) j h

/-- Witness for the amended C2 bound at a concrete input. -/
theorem detect_box_conf_index_lower_bound_witness :
    (detect_box ⟨3, 3⟩ constBars).boxConfIdx = some 4 ∧ max 3 3 < 4 :=
  ⟨by decide, detect_box_conf_index_lower_bound ⟨3, 3⟩ constBars 4 (by decide)⟩

/-! ### Claim C3 -/

/-- Claim C3: when the ceiling counter reaches its threshold at bar `kc`,
strictly before the floor counter first reaches its own (at bar `kf`), the
detector reports no confirmed box at any bar `i` before the first bar at
which both counters are at or above their thresholds. -/
theorem no_confirmation_before_joint_threshold (cfg : BoxCfg) (bars : List WBar)
    (i kc kf : ℕ) (hkc1 : 1 ≤ kc) (hkci : kc ≤ i) (hkckf : kc < kf)
    (hceil : cfg.ceilBars ≤ ceilCount bars kc)
    (hfloor : cfg.floorBars ≤ floorCount bars kf)
    (hjoint : ∀ m, m ≤ i →
      ¬(cfg.ceilBars ≤ ceilCount bars m ∧ cfg.floorBars ≤ floorCount bars m)) :
    (stAt cfg bars i).boxConfIdx = none := by
  rw [stAt_eq_free cfg bars i (fun k _ hk => hjoint k hk)]
  exact stAt_free_no_conf bars i

/-- Bars for the C3 witness: constant highs, lows making a new low once. -/
def c3Bars : List WBar :=
  [⟨10, 5⟩, ⟨10, 4⟩, ⟨10, 4⟩, ⟨10, 4⟩, ⟨10, 4⟩, ⟨10, 4⟩, ⟨10, 4⟩]

/-- Witness for C3: on `c3Bars` with thresholds 3/3 the ceiling counter
reaches 3 at bar 4, the floor counter only at bar 5, and the state at bar 4
holds no confirmed box. -/
theorem no_confirmation_before_joint_threshold_witness :
    (1 ≤ 4 ∧ (3 : ℕ) ≤ ceilCount c3Bars 4 ∧ (3 : ℕ) ≤ floorCount c3Bars 5 ∧
      ¬(3 ≤ ceilCount c3Bars 4 ∧ 3 ≤ floorCount c3Bars 4)) ∧
    (stAt ⟨3, 3⟩ c3Bars 4).boxConfIdx = none :=
  ⟨by decide,
    no_confirmation_before_joint_threshold ⟨3, 3⟩ c3Bars 4 4 5 (by decide)
      (by decide) (by decide) (by decide) (by decide)
      (by decide)⟩

/-! ### Claims C4 and C8 (classifier) -/

/-- The `CONFIG` defaults read by `analyse`. -/
def defaultScanCfg : ScanCfg :=
  { ceilBars := 3, floorBars := 3, atrMultBo := 1/10, volMult := 3/2,
    requireVol := true, slBufferPct := 1/2, maxBoxWidth := 35,
    proximityPct := 7, hotDistPct := 2, hotVolMult := 2,
    warmDistPct := 4, warmVolMult := 13/10 }

/-- Claim C4, amended: with no confirmed box the classifier returns a
BOX FORMING result whose weeks-to-confirm equals the **larger** of the two
remaining confirmation gaps, `max (ceilBars - ceilConf) (floorBars - floorConf)`
(not the smaller, as the claim states). -/
theorem box_forming_weeks_to_confirm (symbol : String) (cfg : ScanCfg)
    (box : BoxState) (close prevClose volRatio atrVal : ℚ)
    (daysInBox : Option ℤ) (h : box.boxCeiling = none) :
    ∃ r, analyse symbol cfg box close prevClose volRatio atrVal daysInBox = some r ∧
      r.status = .boxForming ∧
      r.weeksToConfirm =
        some (max ((cfg.ceilBars : ℤ) - (box.ceilConf : ℤ))
                  ((cfg.floorBars : ℤ) - (box.floorConf : ℤ))) := by
  simp only [analyse, h]
  exact ⟨_, rfl, rfl, rfl⟩

/-- Bars leaving the detector with `ceilConf = 2`, `floorConf = 1`, no box. -/
def c4Bars : List WBar := [⟨10, 5⟩, ⟨9, 3⟩, ⟨9, 4⟩, ⟨8, 4⟩]

/-- Claim C4, counterexample: on `c4Bars` the gaps are `3-2 = 1` (ceiling)
and `3-1 = 2` (floor); the code reports `weeks_to_confirm = 2 = max`, while
the claim's `min` would give `1`. -/
theorem box_forming_weeks_max_ne_min :
    (detect_box ⟨3, 3⟩ c4Bars).boxCeiling = none ∧
    (detect_box ⟨3, 3⟩ c4Bars).ceilConf = 2 ∧
    (detect_box ⟨3, 3⟩ c4Bars).floorConf = 1 ∧
    (analyse "X" defaultScanCfg (detect_box ⟨3, 3⟩ c4Bars) 10 10 1 0 none).map
        ScanResult.weeksToConfirm = some (some 2) ∧
    min ((3 : ℤ) - 2) ((3 : ℤ) - 1) = 1 ∧ (2 : ℤ) ≠ 1 := by
  refine ⟨?_, ?_, ?_, ?_, by norm_num, by norm_num⟩ <;> decide

/-- Witness for the amended C4 at a concrete input. -/
theorem box_forming_weeks_to_confirm_witness :
    (detect_box ⟨3, 3⟩ c4Bars).boxCeiling = none ∧
    ∃ r, analyse "Y" defaultScanCfg (detect_box ⟨3, 3⟩ c4Bars) 10 10 1 0 none =
          some r ∧ r.status = .boxForming ∧
        r.weeksToConfirm =
          some (max ((3 : ℤ) - ((detect_box ⟨3, 3⟩ c4Bars).ceilConf : ℤ))
                    ((3 : ℤ) - ((detect_box ⟨3, 3⟩ c4Bars).floorConf : ℤ))) :=
  ⟨by decide,
    box_forming_weeks_to_confirm "Y" defaultScanCfg (detect_box ⟨3, 3⟩ c4Bars)
      10 10 1 0 none (by decide)⟩

/-- Claim C8: a confirmed box whose width percentage exceeds
`max_box_width` makes `analyse` return no result at all. -/
theorem wide_box_excluded (symbol : String) (cfg : ScanCfg) (box : BoxState)
    (close prevClose volRatio atrVal : ℚ) (daysInBox : Option ℤ) (bc bf : ℚ)
    (hc : box.boxCeiling = some bc) (hf : box.boxFloor = some bf)
    (hw : cfg.maxBoxWidth < (bc - bf) / bf * 100) :
    analyse symbol cfg box close prevClose volRatio atrVal daysInBox = none := by
  simp only [analyse, hc, hf]
  exact if_pos hw

/-- A reachable detector state with a confirmed 100–140 box. -/
def wideBoxState : BoxState :=
  { pendingCeil := some 140, pendingFloor := some 100, ceilConf := 0,
    floorConf := 0, boxCeiling := some 140, boxFloor := some 100,
    boxConfIdx := some 4 }

/-- Witness for C8: a 40%-wide box (over the 35% default cap) is excluded. -/
theorem wide_box_excluded_witness :
    ((140 : ℚ) - 100) / 100 * 100 = 40 ∧ (35 : ℚ) < 40 ∧
    analyse "Z" defaultScanCfg wideBoxState 120 119 1 1 (some 3) = none :=
  ⟨by norm_num, by norm_num,
    wide_box_excluded "Z" defaultScanCfg wideBoxState 120 119 1 1 (some 3)
      140 100 rfl rfl (by norm_num [defaultScanCfg])⟩

/-! ### List lemmas for the watchlist merge -/

theorem symIs_eq_true {s : String} {e : Entry} : symIs s e = true ↔ e.symbol = s := by
  simp [symIs]

theorem filter_singleton_find? {p : Entry → Bool} {l : List Entry} {e : Entry}
    (h : l.filter p = [e]) : l.find? p = some e := by
  induction l with
  | nil => simp at h
  | cons a t ih =>
      by_cases hpa : p a = true
      · rw [List.filter_cons_of_pos hpa] at h
        rw [List.find?_cons_of_pos _ hpa]
        exact congrArg some (List.cons_eq_cons.mp h).1
      · rw [List.filter_cons_of_neg (by simpa using hpa)] at h
        rw [List.find?_cons_of_neg _ (by simpa using hpa)]
        exact ih h

theorem filter_singleton_mem {p : Entry → Bool} {l : List Entry} {e : Entry}
    (h : l.filter p = [e]) : e ∈ l ∧ p e = true := by
  have : e ∈ l.filter p := by rw [h]; exact List.mem_singleton.mpr rfl
  exact List.mem_filter.mp this

theorem filter_singleton_unique {p : Entry → Bool} {l : List Entry} {e x : Entry}
    (h : l.filter p = [e]) (hx : x ∈ l) (hpx : p x = true) : x = e := by
  have : x ∈ l.filter p := List.mem_filter.mpr ⟨hx, hpx⟩
  rw [h] at this
  exact List.mem_singleton.mp this

theorem filter_singleton_any {p : Entry → Bool} {l : List Entry} {e : Entry}
    (h : l.filter p = [e]) : l.any p = true :=
  List.any_eq_true.mpr ⟨e, (filter_singleton_mem h).1, (filter_singleton_mem h).2⟩

theorem filter_nil_any {p : Entry → Bool} {l : List Entry}
    (h : l.filter p = []) : l.any p = false := by
  rw [← Bool.not_eq_true]
  intro hc
  rcases List.any_eq_true.mp hc with ⟨x, hx, hpx⟩
  exact (List.filter_eq_nil_iff.mp h x hx) hpx

theorem updateFirst_filter_self {p : Entry → Bool} {f : Entry → Entry}
    (hf : ∀ x, p (f x) = p x) :
    ∀ {l : List Entry} {e : Entry}, l.filter p = [e] →
      (updateFirst p f l).filter p = [f e] := by
  intro l
  induction l with
  | nil => intro e h; simp at h
  | cons a t ih =>
      intro e h
      by_cases hpa : p a = true
      · rw [List.filter_cons_of_pos hpa] at h
        obtain ⟨ha, ht⟩ := List.cons_eq_cons.mp h
        rw [updateFirst, if_pos hpa,
          List.filter_cons_of_pos (by rw [hf]; exact hpa), ha, ht]
      · rw [List.filter_cons_of_neg (by simpa using hpa)] at h
        rw [updateFirst, if_neg (by simpa using hpa),
          List.filter_cons_of_neg (by simpa using hpa)]
        exact ih h

theorem updateFirst_filter_nil {p : Entry → Bool} {f : Entry → Entry}
    {l : List Entry} (h : l.filter p = []) : updateFirst p f l = l := by
  induction l with
  | nil => rfl
  | cons a t ih =>
      have hpa : ¬p a = true := List.filter_eq_nil_iff.mp h a (by simp)
      rw [List.filter_cons_of_neg (by simpa using hpa)] at h
      rw [updateFirst, if_neg hpa, ih h]

theorem updateFirst_filter_other {p q : Entry → Bool} {f : Entry → Entry}
    (hpq : ∀ x, p x = true → q x = false) (hfq : ∀ x, q (f x) = q x) :
    ∀ (l : List Entry), (updateFirst p f l).filter q = l.filter q := by
  intro l
  induction l with
  | nil => rfl
  | cons a t ih =>
      by_cases hpa : p a = true
      · rw [updateFirst, if_pos hpa,
          List.filter_cons_of_neg (by rw [hfq]; simp [hpq a hpa]),
          List.filter_cons_of_neg (by simp [hpq a hpa])]
      · rw [updateFirst, if_neg hpa]
        by_cases hqa : q a = true
        · rw [List.filter_cons_of_pos hqa, List.filter_cons_of_pos hqa, ih]
        · rw [List.filter_cons_of_neg (by simpa using hqa),
            List.filter_cons_of_neg (by simpa using hqa), ih]

theorem updateFirst_comm_filter {p : Entry → Bool} {f : Entry → Entry}
    (hf : ∀ x, p (f x) = p x) :
    ∀ (l : List Entry), (updateFirst p f l).filter p = updateFirst p f (l.filter p) := by
  intro l
  induction l with
  | nil => rfl
  | cons a t ih =>
      by_cases hpa : p a = true
      · rw [updateFirst, if_pos hpa, List.filter_cons_of_pos (by rw [hf]; exact hpa),
          List.filter_cons_of_pos hpa, updateFirst, if_pos hpa]
      · rw [updateFirst, if_neg hpa, List.filter_cons_of_neg (by simpa using hpa),
          List.filter_cons_of_neg (by simpa using hpa), ih]

theorem filter_not_filter {p : Entry → Bool} (l : List Entry) :
    (l.filter (fun e => !p e)).filter p = [] := by
  rw [List.filter_filter]
  apply List.filter_eq_nil_iff.mpr
  intro a _
  simp

theorem filter_of_remove_other {s1 s2 : String} (h : s1 ≠ s2) (l : List Entry) :
    (l.filter (fun e => !symIs s1 e)).filter (symIs s2) = l.filter (symIs s2) := by
  rw [List.filter_filter]
  apply List.filter_congr
  intro x _
  by_cases hx : x.symbol = s2
  · have h1 : symIs s1 x = false := by
      simp only [symIs, hx, beq_eq_false_iff_ne, ne_eq]
      exact fun hc => h hc.symm
    simp [h1]
  · have h2 : symIs s2 x = false := by simp [symIs, hx]
    simp [h2]

theorem nodup_filter_sym (l : List Entry) (h : (l.map Entry.symbol).Nodup)
    (s : String) :
    l.filter (symIs s) = [] ∨ ∃ e, e.symbol = s ∧ l.filter (symIs s) = [e] := by
  induction l with
  | nil => exact Or.inl rfl
  | cons a t ih =>
      rw [List.map_cons, List.nodup_cons] at h
      by_cases hpa : a.symbol = s
      · right
        refine ⟨a, hpa, ?_⟩
        rw [List.filter_cons_of_pos (symIs_eq_true.mpr hpa)]
        have : t.filter (symIs s) = [] := by
          apply List.filter_eq_nil_iff.mpr
          intro x hx hpx
          exact h.1 (hpa ▸ (symIs_eq_true.mp hpx) ▸ List.mem_map_of_mem Entry.symbol hx)
        rw [this]
      · rw [List.filter_cons_of_neg (by simp [symIs, hpa])]
        exact ih h.2

theorem any_filter_self {p : Entry → Bool} (l : List Entry) :
    (l.filter p).any p = l.any p := by
  induction l with
  | nil => rfl
  | cons a t ih =>
      by_cases hpa : p a = true
      · simp [hpa]
      · rw [List.filter_cons_of_neg (by simpa using hpa)]
        simp only [List.any_cons, ih]
        rw [Bool.not_eq_true] at hpa
        rw [hpa, Bool.false_or]

theorem find?_filter_self {p : Entry → Bool} (l : List Entry) :
    (l.filter p).find? p = l.find? p := by
  induction l with
  | nil => rfl
  | cons a t ih =>
      by_cases hpa : p a = true
      · rw [List.filter_cons_of_pos hpa, List.find?_cons_of_pos _ hpa,
          List.find?_cons_of_pos _ hpa]
      · rw [List.filter_cons_of_neg (by simpa using hpa),
          List.find?_cons_of_neg _ (by simpa using hpa), ih]

theorem filter_not_filter_self {p : Entry → Bool} (l : List Entry) :
    (l.filter p).filter (fun e => !p e) = [] := by
  rw [List.filter_filter]
  apply List.filter_eq_nil_iff.mpr
  intro a _
  simp

/-- The per-result loop body produces one of four shapes: unchanged, all rows
of the symbol removed, the first row of the symbol updated in place (by a
symbol-preserving function), or one new row appended. -/
theorem mergeStep_shape (today : ℤ) (wl : List Entry) (r : ScanResult) :
    mergeStep today wl r = wl ∨
    mergeStep today wl r = wl.filter (fun e => !symIs r.symbol e) ∨
    (∃ f : Entry → Entry, (∀ x, (f x).symbol = x.symbol) ∧
      mergeStep today wl r = updateFirst (symIs r.symbol) f wl) ∨
    mergeStep today wl r = wl ++ [newEntry today r] := by
  unfold mergeStep
  split
  · exact Or.inl rfl
  · split
    · split
      · exact Or.inr (Or.inl rfl)
      · exact Or.inl rfl
    · split
      · split
        · exact Or.inr (Or.inr (Or.inl ⟨applyUpdate today r, fun x => rfl, rfl⟩))
        · exact Or.inr (Or.inr (Or.inr rfl))
      · split
        · exact Or.inr (Or.inr (Or.inl
            ⟨fun e => { e with dateUpdated := today, status := .boxForming },
              fun x => rfl, rfl⟩))
        · exact Or.inl rfl

/-- A merge step for one result leaves the rows of every other symbol
untouched. -/
theorem mergeStep_filter_other (today : ℤ) (r : ScanResult) (s : String)
    (h : r.symbol ≠ s) (wl : List Entry) :
    (mergeStep today wl r).filter (symIs s) = wl.filter (symIs s) := by
  rcases mergeStep_shape today wl r with h1 | h1 | ⟨f, hf, h1⟩ | h1 <;> rw [h1]
  · exact filter_of_remove_other h wl
  · apply updateFirst_filter_other
    · intro x hx
      rw [symIs_eq_true] at hx
      simp [symIs, hx, h]
    · intro x
      simp [symIs, hf x]
  · rw [List.filter_append]
    have : symIs s (newEntry today r) = false := by simp [symIs, newEntry, h]
    rw [List.filter_cons_of_neg (by simpa using this)]
    simp

/-- A merge step commutes with restriction to its own symbol: acting on the
whole list and then looking at the rows of `r.symbol` is the same as acting
on just those rows. -/
theorem mergeStep_comm_filter (today : ℤ) (r : ScanResult) (wl : List Entry) :
    (mergeStep today wl r).filter (symIs r.symbol) =
      mergeStep today (wl.filter (symIs r.symbol)) r := by
  have hany := any_filter_self (p := symIs r.symbol) wl
  have hfind := find?_filter_self (p := symIs r.symbol) wl
  unfold mergeStep
  rw [hany, hfind]
  by_cases c1 : wl.any (symIs r.symbol) = true ∧
      ((wl.find? (symIs r.symbol)).map (fun e => e.status.isProtected)).getD false = true
  · rw [if_pos c1, if_pos c1]
  · rw [if_neg c1, if_neg c1]
    by_cases c2 : r.status = .freshBreakout
    · rw [if_pos c2, if_pos c2]
      by_cases c3 : wl.any (symIs r.symbol) = true
      · rw [if_pos c3, if_pos c3, filter_not_filter, filter_not_filter_self]
      · rw [if_neg c3, if_neg c3]
    · rw [if_neg c2, if_neg c2]
      by_cases c4 : r.status = .approaching ∨ r.status = .watching
      · rw [if_pos c4, if_pos c4]
        by_cases c5 : wl.any (symIs r.symbol) = true
        · rw [if_pos c5, if_pos c5]
          exact @updateFirst_comm_filter (symIs r.symbol) (applyUpdate today r)
            (fun x => rfl) wl
        · rw [if_neg c5, if_neg c5, List.filter_append]
          have : symIs r.symbol (newEntry today r) = true := by
            simp [symIs, newEntry]
          rw [List.filter_cons_of_pos this]
          rfl
      · rw [if_neg c4, if_neg c4]
        by_cases c6 : r.status = .boxForming ∧ wl.any (symIs r.symbol) = true
        · rw [if_pos c6, if_pos c6]
          exact @updateFirst_comm_filter (symIs r.symbol)
            (fun e => { e with dateUpdated := today, status := .boxForming })
            (fun x => rfl) wl
        · rw [if_neg c6, if_neg c6]

/-- A singleton watchlist holding a protected row for the result's symbol is
left untouched by the loop body. -/
theorem mergeStep_protected_singleton (today : ℤ) (r : ScanResult) (e : Entry)
    (he : e.symbol = r.symbol) (hp : e.status.isProtected = true) :
    mergeStep today [e] r = [e] := by
  have hpe : symIs r.symbol e = true := symIs_eq_true.mpr he
  unfold mergeStep
  rw [if_pos]
  constructor
  · simp [hpe]
  · rw [List.find?_cons_of_pos _ hpe]
    simpa using hp

/-- Fold form: a protected row is the unique row of its symbol throughout the
whole per-symbol pass. -/
theorem foldl_filter_protected (today : ℤ) (e : Entry)
    (hp : e.status.isProtected = true) :
    ∀ (results : List ScanResult) (wl : List Entry),
      wl.filter (symIs e.symbol) = [e] →
      (results.foldl (mergeStep today) wl).filter (symIs e.symbol) = [e] := by
  intro results
  induction results with
  | nil => intro wl h; exact h
  | cons r rest ih =>
      intro wl h
      rw [List.foldl_cons]
      apply ih
      by_cases hs : r.symbol = e.symbol
      · rw [← hs] at h ⊢
        rw [mergeStep_comm_filter, h,
          mergeStep_protected_singleton today r e hs.symm hp]
      · rw [mergeStep_filter_other today r e.symbol hs, h]

/-! ### Claim C1 -/

/-- Claim C1: a watchlist row with a protected status (POSITION OPEN,
POSITION CLOSED, MANUAL) survives the whole merge — including a
FRESH BREAKOUT result for its symbol and the expiry pass — completely
unchanged, and stays the only row of its symbol. -/
theorem protected_entry_immutable (today maxDays : ℤ) (wl : List Entry)
    (results : List ScanResult) (e : Entry)
    (hnd : (wl.map Entry.symbol).Nodup) (he : e ∈ wl)
    (hp : e.status.isProtected = true) :
    e ∈ merge_into_watchlist today maxDays wl results ∧
    (merge_into_watchlist today maxDays wl results).filter (symIs e.symbol) = [e] := by
  have hfe : wl.filter (symIs e.symbol) = [e] := by
    rcases nodup_filter_sym wl hnd e.symbol with h0 | ⟨x, hx, h0⟩
    · exact absurd (List.mem_filter.mpr ⟨he, symIs_eq_true.mpr rfl⟩)
        (by rw [h0]; simp)
    · have := filter_singleton_unique h0 he (symIs_eq_true.mpr rfl)
      rw [this] at h0 ⊢
      exact h0
  have hfold := foldl_filter_protected today e hp results wl hfe
  have hsurv : survives today maxDays e = true := by
    simp [survives, hp]
  have hfinal : (merge_into_watchlist today maxDays wl results).filter
      (symIs e.symbol) = [e] := by
    unfold merge_into_watchlist expire
    rw [List.filter_filter]
    have hcomm : List.filter (fun a => symIs e.symbol a && survives today maxDays a)
        (List.foldl (mergeStep today) wl results) =
        List.filter (fun a => survives today maxDays a && symIs e.symbol a)
        (List.foldl (mergeStep today) wl results) :=
      List.filter_congr (fun x _ => Bool.and_comm _ _)
    rw [hcomm, ← List.filter_filter, hfold, List.filter_cons_of_pos hsurv]
    rfl
  refine ⟨?_, hfinal⟩
  have : e ∈ (merge_into_watchlist today maxDays wl results).filter
      (symIs e.symbol) := by rw [hfinal]; simp
  exact (List.mem_filter.mp this).1

/-- Concrete protected row and FRESH BREAKOUT result for the C1 witness. -/
def openPosEntry : Entry :=
  { symbol := "AAA", dateAdded := 0, dateUpdated := 0,
    prevStatus := .approaching, status := .positionOpen,
    boxCeiling := some 100, boxFloor := some 90, boxWidthPct := some 11,
    slPrice := some 89, mmTarget := some 110, daysInBox := some 12,
    source := "chartink", entryPrice := some 95, qty := some 10, notes := "" }

def freshResultAAA : ScanResult :=
  { symbol := "AAA", status := .freshBreakout, alertTier := "HOT", close := 130,
    boxCeiling := some 120, boxFloor := some 105, boxWidthPct := some (143/10),
    distToCeil := some (-8), slPrice := some 104, mmTarget := some 135,
    riskPct := some 20, rrRatioVal := some (1/2), volRatio := 2,
    daysInBox := some 4, weeksToConfirm := none, ceilConf := 0, floorConf := 0,
    source := "chartink" }

/-- Witness for C1: an over-age POSITION OPEN row fed a FRESH BREAKOUT result
is neither graduated nor expired nor modified. -/
theorem protected_entry_immutable_witness :
    (([openPosEntry].map Entry.symbol).Nodup ∧
      openPosEntry.status.isProtected = true ∧ (45 : ℤ) < 100 - 0) ∧
    openPosEntry ∈ merge_into_watchlist 100 45 [openPosEntry] [freshResultAAA] :=
  ⟨⟨by decide, by decide, by norm_num⟩,
    (protected_entry_immutable 100 45 [openPosEntry] [freshResultAAA]
      openPosEntry (by decide) (by decide) (by decide)).1⟩

/-! ### Claims C6 and C10 (position sizing) -/

/-- Claim C6, counterexample: with per-share risk `1 > 0` and max risk `½`,
`floor(maxRisk / risk) = 0`, but `qty_by_risk` returns `1` — the one-share
floor applies to every sizing, not only to non-positive per-share risk. -/
theorem qty_floor_zero_clamped :
    qty_by_risk 100 99 (1/2) = 1 ∧ ⌊((1 : ℚ)/2) / ((100 : ℚ) - 99)⌋ = 0 ∧
    (1 : ℤ) ≠ 0 := by
  refine ⟨?_, ?_, by decide⟩
  · unfold qty_by_risk pytrunc
    norm_num
  · norm_num

/-- Claim C6, amended: for positive per-share risk the quantity is
`max 1 ⌊maxRisk / (entry - stop)⌋` (the floor of 1 share applies always);
for non-positive per-share risk it is 1.  The claim's concrete instances
hold: `(1000, 950, 5000) ↦ 100` and any `stop ≥ entry` gives 1. -/
theorem qty_by_risk_formula :
    (∀ entry sl m : ℚ, 0 < entry - sl →
      qty_by_risk entry sl m = max 1 ⌊m / (entry - sl)⌋) ∧
    (∀ entry sl m : ℚ, entry - sl ≤ 0 → qty_by_risk entry sl m = 1) ∧
    qty_by_risk 1000 950 5000 = 100 ∧ qty_by_risk 950 1000 5000 = 1 := by
  refine ⟨?_, ?_, by unfold qty_by_risk pytrunc; norm_num,
    by unfold qty_by_risk; norm_num⟩
  · intro entry sl m hpos
    unfold qty_by_risk pytrunc
    rw [if_neg (by push_neg; exact hpos)]
    by_cases hm : 0 ≤ m / (entry - sl)
    · rw [if_pos hm]
    · rw [if_neg hm]
      push_neg at hm
      have h1 : -⌊-(m / (entry - sl))⌋ ≤ 0 := by
        have : (0 : ℤ) ≤ ⌊-(m / (entry - sl))⌋ :=
          Int.le_floor.mpr (by push_cast; linarith)
        omega
      have h2 : ⌊m / (entry - sl)⌋ ≤ 0 := Int.floor_nonpos hm.le
      omega
  · intro entry sl m hle
    unfold qty_by_risk
    rw [if_pos hle]

/-- Witness for the amended C6 formula at a concrete positive-risk input. -/
theorem qty_by_risk_formula_witness :
    (0 : ℚ) < 1000 - 950 ∧ qty_by_risk 1000 950 5000 = max 1 ⌊(5000 : ℚ) / (1000 - 950)⌋ :=
  ⟨by norm_num, qty_by_risk_formula.1 1000 950 5000 (by norm_num)⟩

/-- Claim C10: the quantity is always at least one share, and consequently
the rupee risk of the built order can exceed the configured maximum
(concretely: ceiling 100000, stop 90000, max risk 5000 gives a 1-share order
risking 10300) — the risk cap is a target, not a guaranteed bound. -/
theorem qty_min_one_risk_exceeds_cap :
    (∀ entry sl m : ℚ, 1 ≤ qty_by_risk entry sl m) ∧
    (build_order "X" 100000 90000 120000 ⟨3/10, 5000⟩).quantity = 1 ∧
    (build_order "X" 100000 90000 120000 ⟨3/10, 5000⟩).riskInr = 10300 ∧
    (5000 : ℚ) < 10300 := by
  refine ⟨?_,
    by unfold build_order qty_by_risk pytrunc pyRound2 pyRound rHalfEven; norm_num,
    by unfold build_order qty_by_risk pytrunc pyRound2 pyRound rHalfEven; norm_num,
    by norm_num⟩
  intro entry sl m
  unfold qty_by_risk
  by_cases h : entry - sl ≤ 0
  · rw [if_pos h]
  · rw [if_neg h]
    exact le_max_left 1 _

/-! ### Branch evaluations of the merge step -/

theorem find?_protected_getD_false {wl : List Entry} {s : String}
    (h : ∀ x ∈ wl, x.symbol = s → x.status.isProtected = false) :
    ((wl.find? (symIs s)).map (fun e => e.status.isProtected)).getD false = false := by
  cases hf : wl.find? (symIs s) with
  | none => rfl
  | some x =>
      have hx : x ∈ wl ∧ symIs s x = true := by
        refine ⟨List.mem_of_find?_eq_some hf, List.find?_some hf⟩
      simpa using h x hx.1 (symIs_eq_true.mp hx.2)

/-- The APPROACHING / WATCHING branch on a present, unprotected symbol. -/
theorem mergeStep_eq_update (today : ℤ) (wl : List Entry) (r : ScanResult)
    (hex : wl.any (symIs r.symbol) = true)
    (hnp : ((wl.find? (symIs r.symbol)).map (fun e => e.status.isProtected)).getD false = false)
    (hs : r.status = .approaching ∨ r.status = .watching) :
    mergeStep today wl r = updateFirst (symIs r.symbol) (applyUpdate today r) wl := by
  unfold mergeStep
  rw [if_neg (by rw [hnp]; simp), if_neg ?hfr, if_pos hs, if_pos hex]
  case hfr =>
    rcases hs with h | h <;> rw [h] <;> exact fun hc => Status.noConfusion hc

/-- The APPROACHING / WATCHING branch on an absent symbol appends a new row. -/
theorem mergeStep_eq_create (today : ℤ) (wl : List Entry) (r : ScanResult)
    (hex : wl.any (symIs r.symbol) = false)
    (hs : r.status = .approaching ∨ r.status = .watching) :
    mergeStep today wl r = wl ++ [newEntry today r] := by
  unfold mergeStep
  rw [if_neg (by rw [hex]; simp), if_neg ?hfr, if_pos hs, if_neg (by rw [hex]; simp)]
  case hfr =>
    rcases hs with h | h <;> rw [h] <;> exact fun hc => Status.noConfusion hc

/-- The FRESH BREAKOUT branch on a present, unprotected symbol removes it. -/
theorem mergeStep_eq_remove (today : ℤ) (wl : List Entry) (r : ScanResult)
    (hex : wl.any (symIs r.symbol) = true)
    (hnp : ((wl.find? (symIs r.symbol)).map (fun e => e.status.isProtected)).getD false = false)
    (hs : r.status = .freshBreakout) :
    mergeStep today wl r = wl.filter (fun e => !symIs r.symbol e) := by
  unfold mergeStep
  rw [if_neg (by rw [hnp]; simp), if_pos hs, if_pos hex]

/-- The BOX FORMING branch on a present, unprotected symbol refreshes it. -/
theorem mergeStep_eq_refresh (today : ℤ) (wl : List Entry) (r : ScanResult)
    (hex : wl.any (symIs r.symbol) = true)
    (hnp : ((wl.find? (symIs r.symbol)).map (fun e => e.status.isProtected)).getD false = false)
    (hs : r.status = .boxForming) :
    mergeStep today wl r = updateFirst (symIs r.symbol)
      (fun e => { e with dateUpdated := today, status := .boxForming }) wl := by
  unfold mergeStep
  rw [if_neg (by rw [hnp]; simp), if_neg (by rw [hs]; exact fun hc => Status.noConfusion hc),
    if_neg (by rw [hs]; rintro (hc | hc) <;> exact Status.noConfusion hc),
    if_pos ⟨hs, hex⟩]

/-- The loop body ignores a result whose symbol is absent, unless it is an
APPROACHING / WATCHING result. -/
theorem mergeStep_eq_noop_absent (today : ℤ) (wl : List Entry) (r : ScanResult)
    (hex : wl.any (symIs r.symbol) = false)
    (hs : ¬(r.status = .approaching ∨ r.status = .watching)) :
    mergeStep today wl r = wl := by
  unfold mergeStep
  rw [if_neg (by rw [hex]; simp)]
  split
  · rw [if_neg (by simp [hex])]
  · split
    · rename_i hc
      exact absurd hc.2 (by simp [hex])
    · rfl

/-- The loop body ignores a result whose status is none of the four scanner
statuses (e.g. a protected status appearing in a result). -/
theorem mergeStep_eq_noop_other (today : ℤ) (wl : List Entry) (r : ScanResult)
    (h1 : ¬r.status = .freshBreakout)
    (h2 : ¬(r.status = .approaching ∨ r.status = .watching))
    (h3 : ¬r.status = .boxForming) :
    mergeStep today wl r = wl := by
  unfold mergeStep
  split
  · rfl
  · split
    · rename_i hc
      exact absurd hc.1 h3
    · rfl

/-- The skip branch: the first row of the symbol is protected. -/
theorem mergeStep_eq_skip (today : ℤ) (wl : List Entry) (r : ScanResult)
    (hex : wl.any (symIs r.symbol) = true)
    (hpr : ((wl.find? (symIs r.symbol)).map (fun e => e.status.isProtected)).getD false = true) :
    mergeStep today wl r = wl := by
  unfold mergeStep
  rw [if_pos ⟨hex, hpr⟩]

/-- Restriction of the expiry pass to one symbol. -/
theorem expire_filter_comm (today maxDays : ℤ) (s : String) (l : List Entry) :
    (expire today maxDays l).filter (symIs s) =
      (l.filter (symIs s)).filter (survives today maxDays) := by
  unfold expire
  rw [List.filter_filter]
  have : List.filter (fun a => symIs s a && survives today maxDays a) l =
      List.filter (fun a => survives today maxDays a && symIs s a) l :=
    List.filter_congr (fun x _ => Bool.and_comm _ _)
  rw [this, ← List.filter_filter]

/-- In a symbol-keyed watchlist, the rows of a member's symbol are exactly
that member. -/
theorem filter_of_mem_nodup {wl : List Entry} {e : Entry}
    (hnd : (wl.map Entry.symbol).Nodup) (he : e ∈ wl) :
    wl.filter (symIs e.symbol) = [e] := by
  rcases nodup_filter_sym wl hnd e.symbol with h0 | ⟨x, hx, h0⟩
  · exact absurd (List.mem_filter.mpr ⟨he, symIs_eq_true.mpr rfl⟩)
      (by rw [h0]; simp)
  · have := filter_singleton_unique h0 he (symIs_eq_true.mpr rfl)
    rw [this] at h0 ⊢
    exact h0

/-! ### Claim C9 -/

/-- Claim C9, amended: the expiry pass removes an over-age unprotected row
even when it was touched this run.  For a row updated by an APPROACHING or
WATCHING result in this run (which keeps its `date_added`), the merge output
contains it (updated) iff its age does not exceed the window; being touched
gives no protection from expiry. -/
theorem expiry_ignores_touch (today maxDays : ℤ) (wl : List Entry)
    (r : ScanResult) (e : Entry) (hnd : (wl.map Entry.symbol).Nodup)
    (he : e ∈ wl) (hsym : e.symbol = r.symbol)
    (hp : e.status.isProtected = false)
    (hs : r.status = .approaching ∨ r.status = .watching) :
    (maxDays < today - e.dateAdded →
      (merge_into_watchlist today maxDays wl [r]).filter (symIs e.symbol) = []) ∧
    (today - e.dateAdded ≤ maxDays →
      (merge_into_watchlist today maxDays wl [r]).filter (symIs e.symbol) =
        [applyUpdate today r e]) := by
  have hfe : wl.filter (symIs e.symbol) = [e] := filter_of_mem_nodup hnd he
  have hfe' : wl.filter (symIs r.symbol) = [e] := hsym ▸ hfe
  have hstep : (mergeStep today wl r).filter (symIs e.symbol) =
      [applyUpdate today r e] := by
    rw [hsym, mergeStep_comm_filter, hfe']
    rw [mergeStep_eq_update today [e] r (by simp [symIs_eq_true.mpr hsym])
      (by
        apply find?_protected_getD_false
        intro x hx hxs
        rw [List.mem_singleton.mp hx]
        exact hp) hs]
    unfold updateFirst
    rw [if_pos (symIs_eq_true.mpr hsym)]
  have hmerge : (merge_into_watchlist today maxDays wl [r]).filter (symIs e.symbol) =
      [applyUpdate today r e].filter (survives today maxDays) := by
    unfold merge_into_watchlist
    rw [expire_filter_comm, List.foldl_cons, List.foldl_nil, hstep]
  have hrs : r.status.isProtected = false := by
    rcases hs with h | h <;> rw [h] <;> rfl
  have hsur : survives today maxDays (applyUpdate today r e) =
      !(decide (maxDays < today - e.dateAdded)) := by
    unfold survives applyUpdate
    dsimp only
    rw [hrs, Bool.not_false, Bool.and_true]
  constructor
  · intro hage
    rw [hmerge, List.filter_cons_of_neg (by rw [hsur]; simp [hage])]
    rfl
  · intro hage
    rw [hmerge, List.filter_cons_of_pos (by rw [hsur]; simp; omega)]
    rfl

/-- The touched-but-over-age row for the C9 counterexample. -/
def staleWatchEntry : Entry :=
  { symbol := "BBB", dateAdded := 0, dateUpdated := 0,
    prevStatus := .watching, status := .watching,
    boxCeiling := none, boxFloor := none, boxWidthPct := none,
    slPrice := none, mmTarget := none, daysInBox := none,
    source := "chartink", entryPrice := none, qty := none, notes := "" }

/-- Today's APPROACHING result for that symbol. -/
def apprResultBBB : ScanResult :=
  { symbol := "BBB", status := .approaching, alertTier := "WARM", close := 95,
    boxCeiling := none, boxFloor := none, boxWidthPct := none,
    distToCeil := none, slPrice := none, mmTarget := none, riskPct := none,
    rrRatioVal := none, volRatio := 1, daysInBox := none,
    weeksToConfirm := none, ceilConf := 0, floorConf := 0,
    source := "chartink" }

/-- Claim C9, counterexample: a 100-day-old WATCHING row updated by today's
APPROACHING result is nevertheless expired — the merge output is empty,
although the claim says a touched row is never removed by expiry. -/
theorem touched_entry_expired :
    merge_into_watchlist 100 45 [staleWatchEntry] [apprResultBBB] = [] ∧
    apprResultBBB.symbol = staleWatchEntry.symbol ∧
    apprResultBBB.status = .approaching ∧ (45 : ℤ) < 100 - 0 := by
  refine ⟨by decide, by decide, by decide, by decide⟩

/-- Witness for the amended C9 on both sides of the age window. -/
theorem expiry_ignores_touch_witness :
    ((45 : ℤ) < 100 - 0 ∧
      (merge_into_watchlist 100 45 [staleWatchEntry] [apprResultBBB]).filter
        (symIs "BBB") = []) ∧
    ((10 : ℤ) - 0 ≤ 45 ∧
      (merge_into_watchlist 10 45 [staleWatchEntry] [apprResultBBB]).filter
        (symIs "BBB") = [applyUpdate 10 apprResultBBB staleWatchEntry]) :=
  ⟨⟨by norm_num,
     (expiry_ignores_touch 100 45 [staleWatchEntry] apprResultBBB staleWatchEntry
       (by decide) (by decide) (by decide) (by decide) (Or.inl rfl)).1 (by decide)⟩,
   ⟨by norm_num,
     (expiry_ignores_touch 10 45 [staleWatchEntry] apprResultBBB staleWatchEntry
       (by decide) (by decide) (by decide) (by decide) (Or.inl rfl)).2 (by decide)⟩⟩

/-! ### Claim C7 (add-candidate detection) -/

/-- With one result per symbol, the `result_map` lookup finds exactly the
result of the looked-up symbol. -/
theorem lastResultFor_eq_some {results : List ScanResult} {s : String}
    {r : ScanResult} (hndr : (results.map ScanResult.symbol).Nodup) :
    lastResultFor results s = some r ↔ r ∈ results ∧ r.symbol = s := by
  constructor
  · intro h
    unfold lastResultFor at h
    have h1 : r ∈ results.reverse := List.mem_of_find?_eq_some h
    have h2 := List.find?_some h
    exact ⟨List.mem_reverse.mp h1, by simpa using h2⟩
  · rintro ⟨hmem, hsym⟩
    unfold lastResultFor
    cases hf : results.reverse.find? (fun x => x.symbol == s) with
    | none =>
        rw [List.find?_eq_none] at hf
        exact absurd (by simpa using hsym)
          (hf r (List.mem_reverse.mpr hmem))
    | some x =>
        have hx : x ∈ results := List.mem_reverse.mp (List.mem_of_find?_eq_some hf)
        have hxs : x.symbol = s := by simpa using List.find?_some hf
        have := List.inj_on_of_nodup_map hndr hx hmem (by rw [hxs, hsym])
        rw [this]

/-- Unfolding of the loop body: a candidate is produced exactly when the
symbol's (unique) scan result clears the entry price and has the right
status, and then its fields are determined. -/
theorem addCandidateFor_eq_some {results : List ScanResult} {pos : Entry}
    {c : AddCandidate} :
    addCandidateFor results pos = some c ↔
      ∃ scan, lastResultFor results pos.symbol = some scan ∧
        0 < pos.entryPrice.getD 0 ∧
        pos.entryPrice.getD 0 < scan.boxCeiling.getD 0 ∧
        (scan.status = .freshBreakout ∨ scan.status = .approaching) ∧
        c = { scan := scan, origEntry := pos.entryPrice.getD 0,
              origQty := pos.qty.getD 0, tier := scan.alertTier,
              gainPct := pyRound1 ((scan.boxCeiling.getD 0 - pos.entryPrice.getD 0) /
                pos.entryPrice.getD 0 * 100) } := by
  unfold addCandidateFor
  cases hf : lastResultFor results pos.symbol with
  | none =>
      simp only [Option.some.injEq, false_iff, not_exists, not_and]
      constructor
      · intro h; exact absurd h (by simp)
      · rintro ⟨scan, hscan, _⟩
        exact absurd hscan (by simp)
  | some scan =>
      constructor
      · intro h
        dsimp only at h
        by_cases h1 : pos.entryPrice.getD 0 ≤ 0 ∨
            scan.boxCeiling.getD 0 ≤ pos.entryPrice.getD 0
        · rw [if_pos h1] at h
          exact absurd h (by simp)
        · rw [if_neg h1] at h
          by_cases h2 : ¬(scan.status = .freshBreakout ∨ scan.status = .approaching)
          · rw [if_pos h2] at h
            exact absurd h (by simp)
          · rw [if_neg h2] at h
            push_neg at h1
            rw [not_not] at h2
            exact ⟨scan, rfl, h1.1, h1.2, h2, (Option.some_inj.mp h).symm⟩
      · rintro ⟨scan2, hscan2, h0, hlt, hstat, hc⟩
        have hs2 : scan = scan2 := Option.some_inj.mp hscan2
        subst hs2
        dsimp only
        rw [if_neg (by push_neg; exact ⟨h0, hlt⟩),
          if_neg (by rw [not_not]; exact hstat), hc]

/-- Claim C7, amended: an add-candidate for symbol `s` is emitted iff the
watchlist has a POSITION OPEN row for `s` with entry price `> 0` and today's
result for `s` has box ceiling strictly above that entry and status
APPROACHING or FRESH BREAKOUT; the candidate carries the original entry
price, the original quantity, the tier, and the percentage gain of the new
ceiling over the entry **rounded to one decimal** (the code applies
`round(..., 1)`; the claim's exact formula holds only up to that rounding).
The detection reads the watchlist without changing it. -/
theorem add_candidate_characterization (results : List ScanResult)
    (wl : List Entry) (hndw : (wl.map Entry.symbol).Nodup)
    (hndr : (results.map ScanResult.symbol).Nodup) (s : String) :
    ((∃ c ∈ check_add_candidates results wl, c.scan.symbol = s) ↔
      ∃ e ∈ wl, e.symbol = s ∧ e.status = .positionOpen ∧
        0 < e.entryPrice.getD 0 ∧
        ∃ r ∈ results, r.symbol = s ∧
          e.entryPrice.getD 0 < r.boxCeiling.getD 0 ∧
          (r.status = .freshBreakout ∨ r.status = .approaching)) ∧
    (∀ c ∈ check_add_candidates results wl,
      ∃ e ∈ wl, ∃ r ∈ results, c.scan = r ∧ r.symbol = e.symbol ∧
        e.status = .positionOpen ∧
        c.origEntry = e.entryPrice.getD 0 ∧ c.origQty = e.qty.getD 0 ∧
        c.tier = r.alertTier ∧
        c.gainPct = pyRound1 ((r.boxCeiling.getD 0 - e.entryPrice.getD 0) /
          e.entryPrice.getD 0 * 100)) := by
  have hmem : ∀ c, c ∈ check_add_candidates results wl ↔
      ∃ pos ∈ wl, pos.status = .positionOpen ∧
        addCandidateFor results pos = some c := by
    intro c
    unfold check_add_candidates
    split
    · rename_i hemp
      rw [List.isEmpty_iff] at hemp
      subst hemp
      simp
    · rw [List.mem_filterMap]
      constructor
      · rintro ⟨pos, hpos, hf⟩
        obtain ⟨h1, h2⟩ := List.mem_filter.mp hpos
        exact ⟨pos, h1, by simpa using h2, hf⟩
      · rintro ⟨pos, h1, h2, hf⟩
        exact ⟨pos, List.mem_filter.mpr ⟨h1, by simpa using h2⟩, hf⟩
  constructor
  · constructor
    · rintro ⟨c, hc, hcs⟩
      obtain ⟨pos, hposw, hstat, hf⟩ := (hmem c).mp hc
      obtain ⟨scan, hlast, h0, hlt, hst, hceq⟩ := addCandidateFor_eq_some.mp hf
      obtain ⟨hscanmem, hscansym⟩ := (lastResultFor_eq_some hndr).mp hlast
      have hsc : c.scan = scan := by rw [hceq]
      have hpos_s : pos.symbol = s := by
        rw [← hcs, hsc, hscansym]
      exact ⟨pos, hposw, hpos_s, hstat, h0,
        scan, hscanmem, by rw [hscansym, hpos_s], hlt, hst⟩
    · rintro ⟨e, he, hes, hestat, h0, r, hr, hrs, hlt, hst⟩
      have hlast : lastResultFor results e.symbol = some r :=
        (lastResultFor_eq_some hndr).mpr ⟨hr, by rw [hrs, hes]⟩
      refine ⟨_, (hmem _).mpr ⟨e, he, hestat,
        addCandidateFor_eq_some.mpr ⟨r, hlast, h0, hlt, hst, rfl⟩⟩, ?_⟩
      show r.symbol = s
      exact hrs
  · intro c hc
    obtain ⟨pos, hposw, hstat, hf⟩ := (hmem c).mp hc
    obtain ⟨scan, hlast, h0, hlt, hst, hceq⟩ := addCandidateFor_eq_some.mp hf
    obtain ⟨hscanmem, hscansym⟩ := (lastResultFor_eq_some hndr).mp hlast
    refine ⟨pos, hposw, scan, hscanmem, by rw [hceq], hscansym, hstat,
      by rw [hceq], by rw [hceq], by rw [hceq], by rw [hceq]⟩

/-- POSITION OPEN row for the C7 counterexample: entry at 300. -/
def posEntryCCC : Entry :=
  { symbol := "CCC", dateAdded := 0, dateUpdated := 0,
    prevStatus := .positionOpen, status := .positionOpen,
    boxCeiling := none, boxFloor := none, boxWidthPct := none,
    slPrice := none, mmTarget := none, daysInBox := none,
    source := "chartink", entryPrice := some 300, qty := some 7, notes := "" }

/-- Today's APPROACHING result for that symbol, new ceiling 310. -/
def apprResultCCC : ScanResult :=
  { symbol := "CCC", status := .approaching, alertTier := "HOT", close := 305,
    boxCeiling := some 310, boxFloor := none, boxWidthPct := none,
    distToCeil := none, slPrice := none, mmTarget := none, riskPct := none,
    rrRatioVal := none, volRatio := 2, daysInBox := none,
    weeksToConfirm := none, ceilConf := 0, floorConf := 0,
    source := "chartink" }

/-- Claim C7, counterexample: the emitted candidate's gain is the rounded
`3.3`, not the exact `(310-300)/300*100 = 10/3` the claim states. -/
theorem add_candidate_gain_rounded :
    (check_add_candidates [apprResultCCC] [posEntryCCC]).map
      AddCandidate.gainPct = [33/10] ∧
    ((310 : ℚ) - 300) / 300 * 100 = 10/3 ∧ (33/10 : ℚ) ≠ 10/3 := by
  have h1 : check_add_candidates [apprResultCCC] [posEntryCCC] =
      [{ scan := apprResultCCC, origEntry := 300, origQty := 7, tier := "HOT",
         gainPct := pyRound1 ((310 - 300) / 300 * 100) }] := by
    rfl
  have h2 : pyRound1 (((310 : ℚ) - 300) / 300 * 100) = 33/10 := by
    unfold pyRound1 pyRound rHalfEven
    norm_num
  refine ⟨?_, by norm_num, by norm_num⟩
  rw [h1, List.map_cons, List.map_nil, h2]

/-- Witness data for C7: the claim's own 500 / 520 scenario. -/
def posEntryDDD : Entry :=
  { symbol := "DDD", dateAdded := 0, dateUpdated := 0,
    prevStatus := .positionOpen, status := .positionOpen,
    boxCeiling := none, boxFloor := none, boxWidthPct := none,
    slPrice := none, mmTarget := none, daysInBox := none,
    source := "chartink", entryPrice := some 500, qty := some 10, notes := "" }

def apprResultDDD : ScanResult :=
  { symbol := "DDD", status := .approaching, alertTier := "HOT", close := 515,
    boxCeiling := some 520, boxFloor := none, boxWidthPct := none,
    distToCeil := none, slPrice := none, mmTarget := none, riskPct := none,
    rrRatioVal := none, volRatio := 2, daysInBox := none,
    weeksToConfirm := none, ceilConf := 0, floorConf := 0,
    source := "chartink" }

/-- Witness for the amended C7: entry 500, new ceiling 520, APPROACHING →
a candidate for the symbol is emitted (and with ceiling 480 the box-above-
entry condition in the characterization fails, since 480 < 500). -/
theorem add_candidate_characterization_witness :
    (∃ c ∈ check_add_candidates [apprResultDDD] [posEntryDDD],
      c.scan.symbol = "DDD") ∧ ¬((500 : ℚ) < 480) :=
  ⟨(add_candidate_characterization [apprResultDDD] [posEntryDDD]
      (by decide) (by decide) "DDD").1.mpr
    ⟨posEntryDDD, by decide, by decide, by decide, by decide,
      apprResultDDD, by decide, by decide, by decide, Or.inr rfl⟩,
   by norm_num⟩

/-! ### Claim C5 (idempotence of the merge) -/

/-- Row equality on every column except `prev_status`. -/
def EqP (a b : Entry) : Prop :=
  a.symbol = b.symbol ∧ a.dateAdded = b.dateAdded ∧ a.dateUpdated = b.dateUpdated ∧
  a.status = b.status ∧ a.boxCeiling = b.boxCeiling ∧ a.boxFloor = b.boxFloor ∧
  a.boxWidthPct = b.boxWidthPct ∧ a.slPrice = b.slPrice ∧ a.mmTarget = b.mmTarget ∧
  a.daysInBox = b.daysInBox ∧ a.source = b.source ∧ a.entryPrice = b.entryPrice ∧
  a.qty = b.qty ∧ a.notes = b.notes

theorem EqP_refl (a : Entry) : EqP a a :=
  ⟨rfl, rfl, rfl, rfl, rfl, rfl, rfl, rfl, rfl, rfl, rfl, rfl, rfl, rfl⟩

theorem forall2_EqP_refl (l : List Entry) : List.Forall₂ EqP l l := by
  induction l with
  | nil => exact List.Forall₂.nil
  | cons a t ih => exact List.Forall₂.cons (EqP_refl a) ih

/-- What one symbol's rows look like after a full merge, relative to that
symbol's own scan result. -/
def ShapeP (today : ℤ) (r : ScanResult) (l : List Entry) : Prop :=
  if r.status = .approaching ∨ r.status = .watching then
    ∃ e1, l = [e1] ∧ e1.symbol = r.symbol ∧
      (e1.status.isProtected = true ∨
        (e1.status = r.status ∧ e1.dateUpdated = today ∧
         e1.boxCeiling = r.boxCeiling ∧ e1.boxFloor = r.boxFloor ∧
         e1.slPrice = r.slPrice ∧ e1.mmTarget = r.mmTarget ∧
         e1.daysInBox = r.daysInBox))
  else if r.status = .freshBreakout then
    l = [] ∨ ∃ e1, l = [e1] ∧ e1.symbol = r.symbol ∧ e1.status.isProtected = true
  else if r.status = .boxForming then
    l = [] ∨ ∃ e1, l = [e1] ∧ e1.symbol = r.symbol ∧
      (e1.status.isProtected = true ∨
        (e1.status = .boxForming ∧ e1.dateUpdated = today))
  else True

theorem survives_of_protected {e : Entry} (today maxDays : ℤ)
    (h : e.status.isProtected = true) : survives today maxDays e = true := by
  simp [survives, h]

theorem survives_of_age {e : Entry} {today maxDays : ℤ}
    (h : today - e.dateAdded ≤ maxDays) : survives today maxDays e = true := by
  simp only [survives, Bool.not_eq_true']
  rw [decide_eq_false (by omega)]
  simp

theorem survives_congr {a b : Entry} (today maxDays : ℤ) (h : EqP a b) :
    survives today maxDays a = survives today maxDays b := by
  unfold survives
  rw [h.2.1, h.2.2.2.1]

theorem forall2_filter_congr {R : Entry → Entry → Prop} {p q : Entry → Bool}
    (hpq : ∀ a b, R a b → p a = q b) :
    ∀ {l1 l2 : List Entry}, List.Forall₂ R l1 l2 →
      List.Forall₂ R (l1.filter p) (l2.filter q) := by
  intro l1 l2 h
  induction h with
  | nil => exact List.Forall₂.nil
  | cons hab htail ih =>
      rename_i a b t1 t2
      by_cases hpa : p a = true
      · rw [List.filter_cons_of_pos hpa,
          List.filter_cons_of_pos (by rw [← hpq a b hab]; exact hpa)]
        exact List.Forall₂.cons hab ih
      · rw [List.filter_cons_of_neg (by simpa using hpa),
          List.filter_cons_of_neg (by rw [← hpq a b hab]; simpa using hpa)]
        exact ih

theorem forall2_filter_symIs {W W1 : List Entry} (h : List.Forall₂ EqP W W1)
    (s : String) :
    List.Forall₂ EqP (W.filter (symIs s)) (W1.filter (symIs s)) :=
  forall2_filter_congr (fun a b hab => by unfold symIs; rw [hab.1]) h

theorem forall2_nil_right {R : Entry → Entry → Prop} {l : List Entry}
    (h : List.Forall₂ R l []) : l = [] := by
  cases h
  rfl

theorem forall2_singleton_right {R : Entry → Entry → Prop} {l : List Entry}
    {b : Entry} (h : List.Forall₂ R l [b]) : ∃ a, l = [a] ∧ R a b := by
  cases h with
  | cons hab htail =>
      rename_i a t1
      cases htail
      exact ⟨a, rfl, hab⟩

theorem forall2_updateFirst {R : Entry → Entry → Prop} {p : Entry → Bool}
    {f : Entry → Entry} :
    ∀ {W W1 : List Entry}, List.Forall₂ R W W1 →
      (∀ a b, a ∈ W → b ∈ W1 → R a b → p a = true → R (f a) b) →
      List.Forall₂ R (updateFirst p f W) W1 := by
  intro W W1 h
  induction h with
  | nil => intro _; exact List.Forall₂.nil
  | cons hab htail ih =>
      rename_i a b t1 t2
      intro hf
      unfold updateFirst
      split
      · rename_i hpa
        exact List.Forall₂.cons
          (hf a b (List.mem_cons_self a t1) (List.mem_cons_self b t2) hab hpa)
          htail
      · exact List.Forall₂.cons hab
          (ih (fun x y hx hy => hf x y (List.mem_cons_of_mem a hx)
            (List.mem_cons_of_mem b hy)))

theorem forall2_all_of_right {R : Entry → Entry → Prop} {P : Entry → Prop}
    (hcongr : ∀ a b, R a b → P b → P a) :
    ∀ {l l1 : List Entry}, List.Forall₂ R l l1 → (∀ b ∈ l1, P b) →
      ∀ a ∈ l, P a := by
  intro l l1 h
  induction h with
  | nil => intro _ a ha; exact absurd ha (List.not_mem_nil a)
  | cons hab htail ih =>
      rename_i a b t1 t2
      intro h1 x hx
      rcases List.mem_cons.mp hx with hx | hx
      · subst hx
        exact hcongr x b hab (h1 b (List.mem_cons_self b t2))
      · exact ih (fun y hy => h1 y (List.mem_cons_of_mem b hy)) x hx

/-- Results touch only their own symbol: folding results whose symbols avoid
`s` leaves the rows of `s` unchanged. -/
theorem foldl_filter_frame (today : ℤ) (s : String) :
    ∀ (rs : List ScanResult) (W : List Entry), (∀ r ∈ rs, r.symbol ≠ s) →
      (rs.foldl (mergeStep today) W).filter (symIs s) = W.filter (symIs s) := by
  intro rs
  induction rs with
  | nil => intro W _; rfl
  | cons r rest ih =>
      intro W h
      rw [List.foldl_cons, ih _ (fun r' hr' => h r' (List.mem_cons_of_mem r hr')),
        mergeStep_filter_other today r s (h r (List.mem_cons_self r rest))]

/-- With one result per symbol, the whole per-symbol pass acts on the rows of
a result's symbol exactly as the single step for that result does. -/
theorem foldl_filter_at (today : ℤ) :
    ∀ (rs : List ScanResult) (W : List Entry) (r : ScanResult), r ∈ rs →
      (rs.map ScanResult.symbol).Nodup →
      (rs.foldl (mergeStep today) W).filter (symIs r.symbol) =
        mergeStep today (W.filter (symIs r.symbol)) r := by
  intro rs
  induction rs with
  | nil => intro W r hr; exact absurd hr (List.not_mem_nil r)
  | cons r0 rest ih =>
      intro W r hr hnd
      rw [List.map_cons, List.nodup_cons] at hnd
      rcases List.mem_cons.mp hr with hr | hr
      · subst hr
        rw [List.foldl_cons,
          foldl_filter_frame today r.symbol rest _ (fun r' hr' hc =>
            hnd.1 (hc ▸ List.mem_map_of_mem ScanResult.symbol hr')),
          mergeStep_comm_filter]
      · have hne : r0.symbol ≠ r.symbol := fun hc =>
          hnd.1 (hc ▸ List.mem_map_of_mem ScanResult.symbol hr)
        rw [List.foldl_cons, ih _ r hr hnd.2,
          mergeStep_filter_other today r0 r.symbol hne]

theorem bool_eq_false_of_not {b : Bool} (h : ¬b = true) : b = false := by
  cases h' : b with
  | true => exact absurd h' h
  | false => rfl

/-- After a full merge with one result per symbol, the rows of each result's
symbol have the `ShapeP` form (under the no-over-age-touch hypotheses). -/
theorem shape_after_merge (today maxDays : ℤ) (wl : List Entry)
    (results : List ScanResult)
    (hndw : (wl.map Entry.symbol).Nodup)
    (hndr : (results.map ScanResult.symbol).Nodup)
    (hmax : 0 ≤ maxDays)
    (hage : ∀ e ∈ wl, ∀ r ∈ results, r.symbol = e.symbol →
      (r.status = .approaching ∨ r.status = .watching) →
      today - e.dateAdded ≤ maxDays) :
    ∀ r ∈ results, ShapeP today r
      ((merge_into_watchlist today maxDays wl results).filter (symIs r.symbol)) := by
  intro r hr
  have hkey : (merge_into_watchlist today maxDays wl results).filter (symIs r.symbol) =
      (mergeStep today (wl.filter (symIs r.symbol)) r).filter
        (survives today maxDays) := by
    unfold merge_into_watchlist
    rw [expire_filter_comm, foldl_filter_at today results wl r hr hndr]
  rw [hkey]
  by_cases hAW : r.status = .approaching ∨ r.status = .watching
  · unfold ShapeP
    rw [if_pos hAW]
    rcases nodup_filter_sym wl hndw r.symbol with h0 | ⟨e, hesym, h0⟩
    · rw [h0, mergeStep_eq_create today [] r rfl hAW]
      have hsurv : survives today maxDays (newEntry today r) = true := by
        apply survives_of_age
        show today - (newEntry today r).dateAdded ≤ maxDays
        dsimp only [newEntry]
        omega
      rw [show ([] : List Entry) ++ [newEntry today r] = [newEntry today r] from rfl,
        List.filter_cons_of_pos hsurv]
      exact ⟨newEntry today r, rfl, rfl, Or.inr ⟨rfl, rfl, rfl, rfl, rfl, rfl, rfl⟩⟩
    · have hpe : symIs r.symbol e = true := symIs_eq_true.mpr hesym
      have hany : ([e] : List Entry).any (symIs r.symbol) = true := by simp [hpe]
      have hfind : ([e] : List Entry).find? (symIs r.symbol) = some e :=
        List.find?_cons_of_pos _ hpe
      by_cases hprot : e.status.isProtected = true
      · rw [h0, mergeStep_eq_skip today [e] r hany (by rw [hfind]; simpa using hprot),
          List.filter_cons_of_pos (survives_of_protected today maxDays hprot)]
        exact ⟨e, rfl, hesym, Or.inl hprot⟩
      · have hnp : ((([e] : List Entry).find? (symIs r.symbol)).map
            (fun x => x.status.isProtected)).getD false = false := by
          rw [hfind]
          simpa using bool_eq_false_of_not hprot
        rw [h0, mergeStep_eq_update today [e] r hany hnp hAW]
        have hupd : updateFirst (symIs r.symbol) (applyUpdate today r) [e] =
            [applyUpdate today r e] := by
          unfold updateFirst
          rw [if_pos hpe]
        rw [hupd]
        have hsurv : survives today maxDays (applyUpdate today r e) = true := by
          apply survives_of_age
          show today - (applyUpdate today r e).dateAdded ≤ maxDays
          exact hage e (filter_singleton_mem h0).1 r hr hesym.symm hAW
        rw [List.filter_cons_of_pos hsurv]
        exact ⟨applyUpdate today r e, rfl, hesym,
          Or.inr ⟨rfl, rfl, rfl, rfl, rfl, rfl, rfl⟩⟩
  · by_cases hFB : r.status = .freshBreakout
    · unfold ShapeP
      rw [if_neg hAW, if_pos hFB]
      rcases nodup_filter_sym wl hndw r.symbol with h0 | ⟨e, hesym, h0⟩
      · rw [h0, mergeStep_eq_noop_absent today [] r rfl hAW]
        exact Or.inl rfl
      · have hpe : symIs r.symbol e = true := symIs_eq_true.mpr hesym
        have hany : ([e] : List Entry).any (symIs r.symbol) = true := by simp [hpe]
        have hfind : ([e] : List Entry).find? (symIs r.symbol) = some e :=
          List.find?_cons_of_pos _ hpe
        by_cases hprot : e.status.isProtected = true
        · rw [h0, mergeStep_eq_skip today [e] r hany (by rw [hfind]; simpa using hprot),
            List.filter_cons_of_pos (survives_of_protected today maxDays hprot)]
          exact Or.inr ⟨e, rfl, hesym, hprot⟩
        · have hnp : ((([e] : List Entry).find? (symIs r.symbol)).map
              (fun x => x.status.isProtected)).getD false = false := by
            rw [hfind]
            simpa using bool_eq_false_of_not hprot
          rw [h0, mergeStep_eq_remove today [e] r hany hnp hFB,
            List.filter_cons_of_neg (by simp [hpe])]
          exact Or.inl rfl
    · by_cases hBF : r.status = .boxForming
      · unfold ShapeP
        rw [if_neg hAW, if_neg hFB, if_pos hBF]
        rcases nodup_filter_sym wl hndw r.symbol with h0 | ⟨e, hesym, h0⟩
        · rw [h0, mergeStep_eq_noop_absent today [] r rfl hAW]
          exact Or.inl rfl
        · have hpe : symIs r.symbol e = true := symIs_eq_true.mpr hesym
          have hany : ([e] : List Entry).any (symIs r.symbol) = true := by simp [hpe]
          have hfind : ([e] : List Entry).find? (symIs r.symbol) = some e :=
            List.find?_cons_of_pos _ hpe
          by_cases hprot : e.status.isProtected = true
          · rw [h0, mergeStep_eq_skip today [e] r hany (by rw [hfind]; simpa using hprot),
              List.filter_cons_of_pos (survives_of_protected today maxDays hprot)]
            exact Or.inr ⟨e, rfl, hesym, Or.inl hprot⟩
          · have hnp : ((([e] : List Entry).find? (symIs r.symbol)).map
                (fun x => x.status.isProtected)).getD false = false := by
              rw [hfind]
              simpa using bool_eq_false_of_not hprot
            rw [h0, mergeStep_eq_refresh today [e] r hany hnp hBF]
            have hupd : updateFirst (symIs r.symbol)
                (fun x => { x with dateUpdated := today, status := .boxForming }) [e] =
                [{ e with dateUpdated := today, status := .boxForming }] := by
              unfold updateFirst
              rw [if_pos hpe]
            rw [hupd]
            cases hs : survives today maxDays
                { e with dateUpdated := today, status := .boxForming } with
            | false =>
                rw [List.filter_cons_of_neg (by simp [hs])]
                exact Or.inl rfl
            | true =>
                rw [List.filter_cons_of_pos hs]
                exact Or.inr ⟨_, rfl, hesym, Or.inr ⟨rfl, rfl⟩⟩
      · unfold ShapeP
        rw [if_neg hAW, if_neg hFB, if_neg hBF]
        trivial

/-- Replaying a result against a list that is `EqP`-equivalent to the merge
output leaves it `EqP`-equivalent: the second pass only rewrites fields with
the values they already hold (besides `prev_status`). -/
theorem run2_step (today : ℤ) (W1 : List Entry) (r : ScanResult)
    (hshape : ShapeP today r (W1.filter (symIs r.symbol))) :
    ∀ (W : List Entry), List.Forall₂ EqP W W1 →
      List.Forall₂ EqP (mergeStep today W r) W1 := by
  intro W hF
  have hfF := forall2_filter_symIs hF r.symbol
  by_cases hAW : r.status = .approaching ∨ r.status = .watching
  · unfold ShapeP at hshape
    rw [if_pos hAW] at hshape
    obtain ⟨e1, hE1, hsym1, hdisj⟩ := hshape
    rw [hE1] at hfF
    obtain ⟨e, hWf, hRe⟩ := forall2_singleton_right hfF
    have hany : W.any (symIs r.symbol) = true := filter_singleton_any hWf
    have hfind : W.find? (symIs r.symbol) = some e := filter_singleton_find? hWf
    have hestat : e.status = e1.status := hRe.2.2.2.1
    rcases hdisj with hprot | hfacts
    · rw [mergeStep_eq_skip today W r hany
        (by rw [hfind]; simp; rw [hestat]; exact hprot)]
      exact hF
    · have hestat2 : e.status = r.status := hestat.trans hfacts.1
      have hprotF : e.status.isProtected = false := by
        rw [hestat2]
        rcases hAW with h | h <;> rw [h] <;> rfl
      rw [mergeStep_eq_update today W r hany (by rw [hfind]; simpa using hprotF) hAW]
      apply forall2_updateFirst hF
      intro a b _ hbW1 hab hpa
      have hbsym : symIs r.symbol b = true := by
        rw [symIs_eq_true] at hpa ⊢
        rw [← hab.1]
        exact hpa
      have hbe1 : b = e1 := filter_singleton_unique hE1 hbW1 hbsym
      subst hbe1
      exact ⟨hab.1, hab.2.1, hfacts.2.1.symm, hfacts.1.symm,
        hfacts.2.2.1.symm, hfacts.2.2.2.1.symm, hab.2.2.2.2.2.2.1,
        hfacts.2.2.2.2.1.symm, hfacts.2.2.2.2.2.1.symm, hfacts.2.2.2.2.2.2.symm,
        hab.2.2.2.2.2.2.2.2.2.2.1, hab.2.2.2.2.2.2.2.2.2.2.2.1,
        hab.2.2.2.2.2.2.2.2.2.2.2.2.1, hab.2.2.2.2.2.2.2.2.2.2.2.2.2⟩
  · by_cases hFB : r.status = .freshBreakout
    · unfold ShapeP at hshape
      rw [if_neg hAW, if_pos hFB] at hshape
      rcases hshape with h0 | ⟨e1, hE1, hsym1, hprot⟩
      · rw [h0] at hfF
        have hWf : W.filter (symIs r.symbol) = [] := forall2_nil_right hfF
        rw [mergeStep_eq_noop_absent today W r (filter_nil_any hWf) hAW]
        exact hF
      · rw [hE1] at hfF
        obtain ⟨e, hWf, hRe⟩ := forall2_singleton_right hfF
        rw [mergeStep_eq_skip today W r (filter_singleton_any hWf)
          (by rw [filter_singleton_find? hWf]; simp; rw [hRe.2.2.2.1]; exact hprot)]
        exact hF
    · by_cases hBF : r.status = .boxForming
      · unfold ShapeP at hshape
        rw [if_neg hAW, if_neg hFB, if_pos hBF] at hshape
        rcases hshape with h0 | ⟨e1, hE1, hsym1, hdisj⟩
        · rw [h0] at hfF
          have hWf : W.filter (symIs r.symbol) = [] := forall2_nil_right hfF
          rw [mergeStep_eq_noop_absent today W r (filter_nil_any hWf) hAW]
          exact hF
        · rw [hE1] at hfF
          obtain ⟨e, hWf, hRe⟩ := forall2_singleton_right hfF
          have hany : W.any (symIs r.symbol) = true := filter_singleton_any hWf
          have hfind : W.find? (symIs r.symbol) = some e := filter_singleton_find? hWf
          have hestat : e.status = e1.status := hRe.2.2.2.1
          rcases hdisj with hprot | hfacts
          · rw [mergeStep_eq_skip today W r hany
              (by rw [hfind]; simp; rw [hestat]; exact hprot)]
            exact hF
          · have hprotF : e.status.isProtected = false := by
              rw [hestat, hfacts.1]
              rfl
            rw [mergeStep_eq_refresh today W r hany
              (by rw [hfind]; simpa using hprotF) hBF]
            apply forall2_updateFirst hF
            intro a b _ hbW1 hab hpa
            have hbsym : symIs r.symbol b = true := by
              rw [symIs_eq_true] at hpa ⊢
              rw [← hab.1]
              exact hpa
            have hbe1 : b = e1 := filter_singleton_unique hE1 hbW1 hbsym
            subst hbe1
            exact ⟨hab.1, hab.2.1, hfacts.2.symm, hfacts.1.symm,
              hab.2.2.2.2.1, hab.2.2.2.2.2.1, hab.2.2.2.2.2.2.1,
              hab.2.2.2.2.2.2.2.1, hab.2.2.2.2.2.2.2.2.1,
              hab.2.2.2.2.2.2.2.2.2.1, hab.2.2.2.2.2.2.2.2.2.2.1,
              hab.2.2.2.2.2.2.2.2.2.2.2.1, hab.2.2.2.2.2.2.2.2.2.2.2.2.1,
              hab.2.2.2.2.2.2.2.2.2.2.2.2.2⟩
      · rw [mergeStep_eq_noop_other today W r hFB hAW hBF]
        exact hF

/-- Replaying the whole result list preserves `EqP`-equivalence to the merge
output. -/
theorem run2_fold (today : ℤ) (W1 : List Entry) :
    ∀ (rs : List ScanResult),
      (∀ r ∈ rs, ShapeP today r (W1.filter (symIs r.symbol))) →
      ∀ W, List.Forall₂ EqP W W1 →
        List.Forall₂ EqP (rs.foldl (mergeStep today) W) W1 := by
  intro rs
  induction rs with
  | nil => intro _ W hF; exact hF
  | cons r rest ih =>
      intro hshape W hF
      rw [List.foldl_cons]
      exact ih (fun x hx => hshape x (List.mem_cons_of_mem r hx)) _
        (run2_step today W1 r (hshape r (List.mem_cons_self r rest)) W hF)

/-- Claim C5, amended: with one result per symbol (as a scan run produces),
a non-negative expiry window, and no over-age row receiving an APPROACHING /
WATCHING result this run, applying the merge a second time with the same
results yields a watchlist identical to the first application in every column
except possibly `prev_status` (and `date_updated`, which here is the same
`today`): no duplicate rows, no status churn, no box-field churn. -/
theorem merge_idempotent_mod_prev_status (today maxDays : ℤ) (wl : List Entry)
    (results : List ScanResult)
    (hndw : (wl.map Entry.symbol).Nodup)
    (hndr : (results.map ScanResult.symbol).Nodup)
    (hmax : 0 ≤ maxDays)
    (hage : ∀ e ∈ wl, ∀ r ∈ results, r.symbol = e.symbol →
      (r.status = .approaching ∨ r.status = .watching) →
      today - e.dateAdded ≤ maxDays) :
    List.Forall₂ EqP
      (merge_into_watchlist today maxDays
        (merge_into_watchlist today maxDays wl results) results)
      (merge_into_watchlist today maxDays wl results) := by
  have hshape := shape_after_merge today maxDays wl results hndw hndr hmax hage
  have hfold : List.Forall₂ EqP
      (results.foldl (mergeStep today) (merge_into_watchlist today maxDays wl results))
      (merge_into_watchlist today maxDays wl results) :=
    run2_fold today _ results hshape _
      (forall2_EqP_refl (merge_into_watchlist today maxDays wl results))
  have hsurvW1 : ∀ b ∈ merge_into_watchlist today maxDays wl results,
      survives today maxDays b = true := by
    intro b hb
    unfold merge_into_watchlist expire at hb
    exact List.of_mem_filter hb
  have hall : ∀ a ∈ results.foldl (mergeStep today)
      (merge_into_watchlist today maxDays wl results),
      survives today maxDays a = true :=
    forall2_all_of_right
      (fun a b hab hPb => by rw [survives_congr today maxDays hab]; exact hPb)
      hfold hsurvW1
  show List.Forall₂ EqP
    (expire today maxDays (results.foldl (mergeStep today)
      (merge_into_watchlist today maxDays wl results)))
    (merge_into_watchlist today maxDays wl results)
  unfold expire
  rw [List.filter_eq_self.mpr hall]
  exact hfold

/-- WATCHING row whose status differs from today's result, for the C5
counterexample. -/
def wEntryEEE : Entry :=
  { symbol := "EEE", dateAdded := 0, dateUpdated := 0,
    prevStatus := .watching, status := .watching,
    boxCeiling := none, boxFloor := none, boxWidthPct := none,
    slPrice := none, mmTarget := none, daysInBox := none,
    source := "chartink", entryPrice := none, qty := none, notes := "" }

def apprResultEEE : ScanResult :=
  { symbol := "EEE", status := .approaching, alertTier := "", close := 50,
    boxCeiling := none, boxFloor := none, boxWidthPct := none,
    distToCeil := none, slPrice := none, mmTarget := none, riskPct := none,
    rrRatioVal := none, volRatio := 1, daysInBox := none,
    weeksToConfirm := none, ceilConf := 0, floorConf := 0,
    source := "chartink" }

/-- Claim C5, counterexample: merging twice is not identical up to
`dateUpdated` — the second application rewrites `prev_status` (WATCHING
becomes APPROACHING), so a field other than `dateUpdated` differs. -/
theorem merge_twice_changes_prev_status :
    (merge_into_watchlist 10 45
        (merge_into_watchlist 10 45 [wEntryEEE] [apprResultEEE])
        [apprResultEEE]).map Entry.prevStatus = [.approaching] ∧
    (merge_into_watchlist 10 45 [wEntryEEE] [apprResultEEE]).map
      Entry.prevStatus = [.watching] ∧
    Status.approaching ≠ Status.watching := by
  refine ⟨by decide, by decide, by decide⟩

/-- Witness for amended C5 at a concrete input. -/
theorem merge_idempotent_mod_prev_status_witness :
    (([wEntryEEE].map Entry.symbol).Nodup ∧ (0 : ℤ) ≤ 45 ∧ (10 : ℤ) - 0 ≤ 45) ∧
    List.Forall₂ EqP
      (merge_into_watchlist 10 45
        (merge_into_watchlist 10 45 [wEntryEEE] [apprResultEEE]) [apprResultEEE])
      (merge_into_watchlist 10 45 [wEntryEEE] [apprResultEEE]) :=
  ⟨⟨by decide, by decide, by decide⟩,
    merge_idempotent_mod_prev_status 10 45 [wEntryEEE] [apprResultEEE]
      (by decide) (by decide) (by decide)
      (by
        intro e he r hr _ _
        rw [List.mem_singleton.mp he]
        decide)⟩

end Darvas
